import Mathlib

/-!
Verification development for the PyPan potential-flow solver core
(src/pypan/solvers.py and src/pypan/supersonic_solver.py).

Numbers: the Python code computes with IEEE floats; the embedding uses exact
arithmetic.  The supersonic domain-of-dependence (DoD) engine only ever adds,
subtracts, multiplies and compares, so it is embedded generically over a
LinearOrderedCommRing (instantiated at ZZ for concrete runs and at QQ for the
Mach-1.6 scenario).  The vortex-ring solver divides (pressure coefficients),
so it is embedded over QQ.

State: the Python code mutates per-vertex dod_array / dod_list attributes and
the _dod_is_calculated memo vector in place; the embedding threads an explicit
DodState record through a fuel-indexed interpreter whose tasks mirror the two
control points of the source (the body of _calc_dod, and its inner scan loop).
-/

/-- 3-vector of exact scalars; models the numpy length-3 float arrays used
throughout the code. -/
structure Vec3 (α : Type) where
  x : α
  y : α
  z : α
deriving DecidableEq, Repr

variable {α : Type} [LinearOrderedCommRing α]

def Vec3.add (a b : Vec3 α) : Vec3 α := ⟨a.x + b.x, a.y + b.y, a.z + b.z⟩

def Vec3.zero : Vec3 α := ⟨0, 0, 0⟩

def Vec3.sub (a b : Vec3 α) : Vec3 α := ⟨a.x - b.x, a.y - b.y, a.z - b.z⟩

def Vec3.neg (a : Vec3 α) : Vec3 α := ⟨-a.x, -a.y, -a.z⟩

def Vec3.smul (t : α) (a : Vec3 α) : Vec3 α := ⟨t * a.x, t * a.y, t * a.z⟩

/-- Sum of f 0 .. f (n-1), models np.sum along an axis of a stack of
3-vectors. -/
def sumVec : Nat → (Nat → Vec3 α) → Vec3 α
  | 0, _ => ⟨0, 0, 0⟩
  | n + 1, f => (sumVec n f).add (f n)

/-- Sum of f 0 .. f (n-1) of scalars, models np.sum of a float vector. -/
def sumSc : Nat → (Nat → α) → α
  | 0, _ => 0
  | n + 1, f => sumSc n f + f n

/-- Modelled from the spec: the shared numeric module's dot product
(pp_math.inner; pp_math.py is not part of the solver core under src/, the
spec mandates an explicit small vector module with a dot product). -/
def inner3 (a b : Vec3 α) : α := a.x * b.x + a.y * b.y + a.z * b.z

/-! ## Supersonic solver: domain-of-dependence engine
(src/pypan/supersonic_solver.py) -/

/-- Mesh vertices together with the condition-derived quantities used by the
DoD search: the compressibility direction c_0 (line 58) and B**2 = M**2 - 1
(line 62).  The vertex list models mesh.vertices (one position per vertex
index); c_0 is carried as data because the source computes it with
trigonometric functions of alpha and beta, and every claim constrains it only
through being a unit vector. -/
structure SuperCtx (α : Type) where
  verts : List (Vec3 α)
  c0 : Vec3 α
  B2 : α

def SuperCtx.N (ctx : SuperCtx α) : Nat := ctx.verts.length

def SuperCtx.pos (ctx : SuperCtx α) (v : Nat) : Vec3 α := ctx.verts.getD v ⟨0, 0, 0⟩

/-- Projection of vertex v onto the compressibility direction
(x_c = vec_inner(self._mesh.vertices, self._c_0), line 94). -/
def SuperCtx.xc (ctx : SuperCtx α) (v : Nat) : α := inner3 (ctx.pos v) ctx.c0

/-- Stable insertion into a list sorted by the key function; building block of
the argsort model. -/
def insertByKey [DecidableEq α] (key : Nat → α) (v : Nat) : List Nat → List Nat
  | [] => [v]
  | u :: rest => if key u ≤ key v then u :: insertByKey key v rest else v :: u :: rest

/-- Stable insertion sort of vertex indices by key.  Models
np.argsort (line 95); numpy leaves the order of tied keys unspecified, the
model fixes one concrete order. -/
def argsortKey [DecidableEq α] (key : Nat → α) : List Nat → List Nat
  | [] => []
  | v :: rest => insertByKey key v (argsortKey key rest)

/-- The sorted vertex order self._sorted_ind = np.argsort(x_c) (line 95). -/
def SuperCtx.sorted [DecidableEq α] (ctx : SuperCtx α) : List Nat :=
  argsortKey ctx.xc (List.range ctx.N)

/-- Entry j of self._sorted_ind. -/
def SuperCtx.sortedInd [DecidableEq α] (ctx : SuperCtx α) (j : Nat) : Nat :=
  ctx.sorted.getD j 0

/-- SupersonicSolver._in_dod_upstream (lines 143-155): assumes r1 is already
known to be at a not-smaller compressibility coordinate than r0 and only checks
x_c**2 >= B_2 * inner(r_c, r_c). -/
def in_dod_upstream (B2 : α) (c0 r0 r1 : Vec3 α) : Bool :=
  decide (B2 * inner3 ((r1.sub r0).sub (Vec3.smul (inner3 (r1.sub r0) c0) c0))
      ((r1.sub r0).sub (Vec3.smul (inner3 (r1.sub r0) c0) c0)) ≤
    inner3 (r1.sub r0) c0 * inner3 (r1.sub r0) c0)

/-- SupersonicSolver._in_dod (lines 158-175): checks x_c > 0 first and then
performs exactly the x_c**2 >= B_2 * inner(r_c, r_c) comparison, which is the
body of _in_dod_upstream; the guard reuses that definition verbatim. -/
def in_dod (B2 : α) (c0 r0 r1 : Vec3 α) : Bool :=
  if 0 < inner3 (r1.sub r0) c0 then in_dod_upstream B2 c0 r0 r1 else false

/-- Per-vertex mutable search state: vertex.dod_array and vertex.dod_list
(the vertex objects live in mesh.py, outside the solver core; modelled from
the spec: a per-vertex dependency set with a membership array and an insertion
list) together with the solver's own memo vector self._dod_is_calculated. -/
structure DodState where
  dodArray : Nat → Nat → Bool
  dodList : Nat → List Nat
  calculated : Nat → Bool

/-- Fresh state as left by SupersonicSolver.__init__ (lines 32-34): empty
sets, all memo flags false. -/
def initDodState : DodState := ⟨fun _ _ => false, fun _ => [], fun _ => false⟩

/-- The reset loop of set_condition (lines 67-70): clears every vertex's
dod_list and dod_array.  Note it does NOT touch self._dod_is_calculated. -/
def resetDod (st : DodState) : DodState :=
  { st with dodArray := fun _ _ => false, dodList := fun _ => [] }

/-- Record vertex u in vertex ind's dependency set (lines 125-126: set
dod_array[u] and append u to dod_list). -/
def addDep (st : DodState) (ind u : Nat) : DodState :=
  { st with
    dodArray := Function.update st.dodArray ind (Function.update (st.dodArray ind) u true)
    dodList := Function.update st.dodList ind (st.dodList ind ++ [u]) }

/-- The merge loop of _calc_dod (lines 133-136): for each point in the
upstream vertex's dod_list, add it to ind's set if not already present. -/
def mergeDeps (st : DodState) (ind : Nat) (pts : List Nat) : DodState :=
  pts.foldl (fun s p => if s.dodArray ind p then s else addDep s ind p) st

/-- The two control points of the recursive search: the body of
_calc_dod(ind, i) (lines 108-140) and its inner scan over sorted positions
j = i+1 .. N-1 (lines 115-136). -/
inductive DodTask where
  | calcVert (ind i : Nat)
  | scanVert (ind j : Nat)

/-- Fuel-indexed interpreter for the recursive search.  calcVert ind i mirrors
_calc_dod(ind, i): if the memo flag self._dod_is_calculated[ind] is unset, run
the scan loop and then set the flag (line 140).  scanVert ind j mirrors one
iteration of the loop for j in range(i+1, self._N_vert): skip vertices already
in the set (line 119), test _in_dod_upstream (line 122), on success record the
dependency (lines 125-126), recurse into _calc_dod(upstream_ind, j)
(line 129) and merge its dod_list (lines 133-136).  The fuel only bounds the
interpreter's call depth; 2*N+2 is always enough (proved below). -/
def calc_dod [DecidableEq α] (ctx : SuperCtx α) : Nat → DodTask → DodState → DodState
  | 0, _, st => st
  | fuel + 1, .calcVert ind i, st =>
    if st.calculated ind then st
    else
      let st' := calc_dod ctx fuel (.scanVert ind (i + 1)) st
      { st' with calculated := Function.update st'.calculated ind true }
  | fuel + 1, .scanVert ind j, st =>
    if j < ctx.N then
      let u := ctx.sortedInd j
      let st' :=
        if st.dodArray ind u then st
        else if in_dod_upstream ctx.B2 ctx.c0 (ctx.pos ind) (ctx.pos u) then
          let st1 := addDep st ind u
          let st2 := calc_dod ctx fuel (.calcVert u j) st1
          mergeDeps st2 ind (st2.dodList u)
        else st
      calc_dod ctx fuel (.scanVert ind (j + 1)) st'
    else st

/-- SupersonicSolver._run_dod_recursive_search (lines 86-105): process the
sorted vertices from position 0 upward, calling _calc_dod(vert_ind, i) for
each. -/
def run_dod_recursive_search [DecidableEq α] (ctx : SuperCtx α) (st : DodState) : DodState :=
  (List.range ctx.N).foldl
    (fun s i => calc_dod ctx (2 * ctx.N + 2) (.calcVert (ctx.sortedInd i) i) s) st

/-- SupersonicSolver._run_dod_brute_force_search (lines 189-203): entry (i, j)
of self._verts_in_dod_brute_force, the direct predicate applied to every
ordered vertex pair. -/
def run_dod_brute_force (ctx : SuperCtx α) (i j : Nat) : Bool :=
  in_dod ctx.B2 ctx.c0 (ctx.pos i) (ctx.pos j)

/-- The Mach parameter self._B_2 = self._M**2 - 1.0 (line 62). -/
def mach_B2 (M : α) : α := M * M - 1

/-- Solver state relevant to the DoD claims: the mesh vertices and the
per-vertex dependency state that survives across set_condition calls. -/
structure SuperSolver (α : Type) where
  verts : List (Vec3 α)
  dod : DodState

/-- The algorithmic core of SupersonicSolver.set_condition (lines 37-83):
derive B_2 from the Mach number (line 62; c_0 is passed in already computed,
see SuperCtx), clear every vertex's dod_list and dod_array (lines 68-70 —
the memo vector _dod_is_calculated is NOT cleared), then run the recursive
search (line 73) followed by the brute-force search (line 74).  Returns the
updated solver state together with the brute-force matrix. -/
def set_condition_dod [DecidableEq α] (s : SuperSolver α) (M : α) (c0 : Vec3 α) :
    SuperSolver α × (Nat → Nat → Bool) :=
  let ctx : SuperCtx α := ⟨s.verts, c0, mach_B2 M⟩
  let st1 := resetDod s.dod
  let st2 := run_dod_recursive_search ctx st1
  (⟨s.verts, st2⟩, run_dod_brute_force ctx)

/-! Specification-side predicates used to state the invariants of the
recursive search (these are proof devices, not translations of code). -/

/-- Vertex at sorted position j belongs to the ideal dependency set of the
vertex at sorted position i: either the full cone predicate holds between
their positions, or they occupy exactly the same point and j comes later in
the sort order. -/
def SpecP [DecidableEq α] (ctx : SuperCtx α) (i j : Nat) : Prop :=
  j < ctx.N ∧
    (in_dod ctx.B2 ctx.c0 (ctx.pos (ctx.sortedInd i)) (ctx.pos (ctx.sortedInd j)) = true ∨
      (ctx.pos (ctx.sortedInd j) = ctx.pos (ctx.sortedInd i) ∧ i < j))

/-- The dependency row of the vertex at sorted position i is exactly its ideal
dependency set. -/
def RowSpec [DecidableEq α] (ctx : SuperCtx α) (st : DodState) (i : Nat) : Prop :=
  ∀ u, st.dodArray (ctx.sortedInd i) u = true ↔ ∃ j, u = ctx.sortedInd j ∧ SpecP ctx i j

/-- dod_array and dod_list of vertex v hold the same set. -/
def RowAgree (st : DodState) (v : Nat) : Prop :=
  ∀ u, st.dodArray v u = true ↔ u ∈ st.dodList v

/-- Vertex v's dependency set is empty. -/
def RowEmpty (st : DodState) (v : Nat) : Prop :=
  (∀ u, st.dodArray v u = false) ∧ st.dodList v = []

/-- Global invariant of the search state.  A is the set of vertices whose
_calc_dod frame is currently active (their rows are partially built). -/
def GoodState [DecidableEq α] (ctx : SuperCtx α) (A : Nat → Prop) (st : DodState) : Prop :=
  (∀ i, i < ctx.N →
    RowAgree st (ctx.sortedInd i) ∧
      (st.calculated (ctx.sortedInd i) = true → RowSpec ctx st i) ∧
      (st.calculated (ctx.sortedInd i) = false → ¬A (ctx.sortedInd i) →
        RowEmpty st (ctx.sortedInd i))) ∧
  (∀ v, v ∉ ctx.sorted → st.calculated v = false ∧ RowEmpty st v)

/-- What one interpreter step guarantees about state evolution: flags are
monotone, fresh flags appear only at sorted positions ≥ lo, rows of vertices
that were already calculated are frozen, and rows of vertices other than the
currently scanning vertex ex that remain uncalculated are untouched. -/
def StepOut [DecidableEq α] (ctx : SuperCtx α) (lo ex : Nat) (st st' : DodState) : Prop :=
  (∀ v, st.calculated v = true → st'.calculated v = true) ∧
  (∀ v, st'.calculated v = true →
    st.calculated v = true ∨ ∃ j, lo ≤ j ∧ j < ctx.N ∧ v = ctx.sortedInd j) ∧
  (∀ v, st.calculated v = true →
    (∀ u, st'.dodArray v u = st.dodArray v u) ∧ st'.dodList v = st.dodList v) ∧
  (∀ v, v ≠ ex → st'.calculated v = false →
    (∀ u, st'.dodArray v u = st.dodArray v u) ∧ st'.dodList v = st.dodList v)

/-- Invariant of the scan loop of _calc_dod for the vertex ind at sorted
position i, after having processed sorted positions i+1 .. j-1: the row is
sound, complete for the processed range, and closed under ideal dependency. -/
def ScanInv [DecidableEq α] (ctx : SuperCtx α) (i j : Nat) (st : DodState) : Prop :=
  (∀ u, st.dodArray (ctx.sortedInd i) u = true → ∃ k, u = ctx.sortedInd k ∧ SpecP ctx i k) ∧
  (∀ k, i < k → k < j → SpecP ctx i k →
    st.dodArray (ctx.sortedInd i) (ctx.sortedInd k) = true) ∧
  (∀ k l, k < ctx.N → st.dodArray (ctx.sortedInd i) (ctx.sortedInd k) = true → SpecP ctx k l →
    st.dodArray (ctx.sortedInd i) (ctx.sortedInd l) = true)

/-- The active-frame sets appearing in the search invariant are always made of
vertices at sorted positions strictly below a cursor. -/
def ABound [DecidableEq α] (ctx : SuperCtx α) (A : Nat → Prop) (i : Nat) : Prop :=
  ∀ a, A a → ∃ i', i' < i ∧ a = ctx.sortedInd i'

/-- Conclusion bundle for one _calc_dod call on the vertex at sorted
position i. -/
def CalcConcl [DecidableEq α] (ctx : SuperCtx α) (A : Nat → Prop) (i : Nat)
    (st st' : DodState) : Prop :=
  GoodState ctx A st' ∧ StepOut ctx i (ctx.sortedInd i) st st' ∧
    st'.calculated (ctx.sortedInd i) = true

/-- Conclusion bundle for the scan loop of the vertex at sorted position i,
entered at position j. -/
def ScanConcl [DecidableEq α] (ctx : SuperCtx α) (A : Nat → Prop) (i j : Nat)
    (st st' : DodState) : Prop :=
  GoodState ctx (fun v => A v ∨ v = ctx.sortedInd i) st' ∧
    StepOut ctx j (ctx.sortedInd i) st st' ∧
    st'.calculated (ctx.sortedInd i) = st.calculated (ctx.sortedInd i) ∧ ScanInv ctx i ctx.N st'

/-- Fuel that always suffices for one interpreter task (proved below: with at
least this much fuel the result no longer depends on the fuel). -/
def dodFuelBound [DecidableEq α] (ctx : SuperCtx α) : DodTask → Nat
  | .calcVert _ i => if i < ctx.N then 2 * (ctx.N - i) + 2 else 2
  | .scanVert _ j => if j < ctx.N then 2 * (ctx.N - j) + 3 else 1

/-! ## Vortex-ring solver (src/pypan/solvers.py), embedded over QQ -/

/-- A Kutta edge's pair of bordering panel indices
(edge.panel_indices, line 216). -/
structure KuttaEdge where
  p0 : Nat
  p1 : Nat

/-- Projection of the panel influence matrix onto the field-panel normals:
self._A_panels = vec_inner(self._panel_influence_matrix, self._n[np.newaxis,:])
(line 168).  Entry (i, j) is the velocity induced at control point j by a unit
ring on panel i, dotted with panel j's normal.  The influence matrix itself is
produced by Panel.get_ring_influence (mesh.py, outside the core); it enters as
the parameter pim. -/
def A_panels_of (pim : Nat → Nat → Vec3 ℚ) (n : Nat → Vec3 ℚ) : Nat → Nat → ℚ :=
  fun i j => inner3 (pim i j) (n j)

/-- Line 222 of the lifting branch of VortexRingSolver.solve, transcribed
exactly: self._A_vortices = vec_inner(self._panel_influence_matrix,
self._n[np.newaxis,:]) — the PANEL influence matrix appears here, not
self._vortex_influence_matrix. -/
def A_vortices_code (pim : Nat → Nat → Vec3 ℚ) (n : Nat → Vec3 ℚ) : Nat → Nat → ℚ :=
  fun i j => inner3 (pim i j) (n j)

/-- The lifting coefficient matrix A = self._A_panels + self._A_vortices
(line 228), with A_vortices as the code computes it. -/
def liftingA (pim : Nat → Nat → Vec3 ℚ) (n : Nat → Vec3 ℚ) : Nat → Nat → ℚ :=
  fun i j => A_panels_of pim n i j + A_vortices_code pim n i j

/-- Modelled from the spec: the lifting coefficient matrix the specification
describes — panel-ring matrix plus horseshoe-vortex matrix, each projected
onto the field panel's normal (vim is the vortex influence matrix). -/
def liftingA_claimed (pim vim : Nat → Nat → Vec3 ℚ) (n : Nat → Vec3 ℚ) : Nat → Nat → ℚ :=
  fun i j => inner3 (pim i j) (n j) + inner3 (vim i j) (n j)

/-- Assembly of self._vortex_influence_matrix (lines 214-219): for each Kutta
edge, V = -edge.get_vortex_influence(self._cp, self._u_inf) and then BOTH rows
p_ind[0] and p_ind[1] are assigned V (assignment, not accumulation).
edge.get_vortex_influence lives in mesh.py, outside the core; it enters as the
parameter vinf giving each edge's induced velocity at each control point. -/
def buildVortexMatrix (edges : List KuttaEdge) (vinf : KuttaEdge → Nat → Vec3 ℚ) :
    Nat → Nat → Vec3 ℚ :=
  edges.foldl
    (fun m e =>
      let V : Nat → Vec3 ℚ := fun cp => (vinf e cp).neg
      Function.update (Function.update m e.p0 V) e.p1 V)
    (fun _ _ => ⟨0, 0, 0⟩)

/-- The freestream part of the right-hand side, built in
VortexRingSolver.set_condition: self._b = -vec_inner(self._v_inf, self._n)
(line 190). -/
def bTangency (vinf : Vec3 ℚ) (n : Nat → Vec3 ℚ) : Nat → ℚ :=
  fun j => -inner3 vinf (n j)

/-- The nonlifting coefficient matrix (lines 238-240): N panel rows topped off
with a row of ones. -/
def nonliftingA (Np : Nat) (Ap : Nat → Nat → ℚ) : Nat → Nat → ℚ :=
  fun i j => if i < Np then Ap i j else 1

/-- The nonlifting right-hand side (lines 243-244): the tangency values with a
final 0. -/
def nonliftingB (Np : Nat) (b : Nat → ℚ) : Nat → ℚ :=
  fun i => if i < Np then b i else 0

/-- Residual of equation i of the system A gamma = b with cols unknowns. -/
def rowResidual (cols : Nat) (A : Nat → Nat → ℚ) (b : Nat → ℚ) (γ : Nat → ℚ) (i : Nat) : ℚ :=
  sumSc cols (fun j => A i j * γ j) - b i

/-- Squared residual norm over the first rows equations. -/
def residSq (rows cols : Nat) (A : Nat → Nat → ℚ) (b : Nat → ℚ) (γ : Nat → ℚ) : ℚ :=
  sumSc rows (fun i => rowResidual cols A b γ i * rowResidual cols A b γ i)

/-- Modelled from the spec: np.linalg.lstsq (line 247) returns a least-squares
solution — a minimizer of the squared residual norm. -/
def IsLstsq (rows cols : Nat) (A : Nat → Nat → ℚ) (b : Nat → ℚ) (γ : Nat → ℚ) : Prop :=
  ∀ γ' : Nat → ℚ, residSq rows cols A b γ ≤ residSq rows cols A b γ'

/-- γ is the unique least-squares solution (unique on the cols unknowns). -/
def LstsqUnique (rows cols : Nat) (A : Nat → Nat → ℚ) (b : Nat → ℚ) (γ : Nat → ℚ) : Prop :=
  IsLstsq rows cols A b γ ∧
    ∀ γ' : Nat → ℚ, IsLstsq rows cols A b γ' → ∀ j, j < cols → γ' j = γ j

/-- Per-control-point velocity reconstruction (line 261):
self._v = np.sum(self._panel_influence_matrix * self._gamma[:,None,None],
axis=0) — the circulation-weighted sum of influence rows, with NO freestream
term added. -/
def velocities (Np : Nat) (infM : Nat → Nat → Vec3 ℚ) (γ : Nat → ℚ) : Nat → Vec3 ℚ :=
  fun j => sumVec Np (fun i => Vec3.smul (γ i) (infM i j))

/-- Squared local speed: self._V = vec_norm(self._v) (line 264) enters the
pressure coefficient only as V*V, which equals this exact inner product. -/
def speedSq (Np : Nat) (infM : Nat → Nat → Vec3 ℚ) (γ : Nat → ℚ) (j : Nat) : ℚ :=
  inner3 (velocities Np infM γ j) (velocities Np infM γ j)

/-- Pressure coefficient (line 267):
self._C_P = 1.0 - (self._V * self._V) / self._V_inf_2. -/
def pressureCoeff (Np : Nat) (infM : Nat → Nat → Vec3 ℚ) (γ : Nat → ℚ) (Vinf2 : ℚ)
    (j : Nat) : ℚ :=
  1 - speedSq Np infM γ j / Vinf2

/-- Per-panel force (line 271):
self._dF = self._rho * self._V_inf_2 * (self._dA * self._C_P)[:,None] * self._n. -/
def panelForce (Np : Nat) (infM : Nat → Nat → Vec3 ℚ) (γ : Nat → ℚ) (rho Vinf2 : ℚ)
    (dA : Nat → ℚ) (n : Nat → Vec3 ℚ) (j : Nat) : Vec3 ℚ :=
  Vec3.smul (rho * Vinf2 * (dA j * pressureCoeff Np infM γ Vinf2 j)) (n j)

/-- Net force (line 272): self._F = np.sum(self._dF, axis=0). -/
def netForce (Np : Nat) (infM : Nat → Nat → Vec3 ℚ) (γ : Nat → ℚ) (rho Vinf2 : ℚ)
    (dA : Nat → ℚ) (n : Nat → Vec3 ℚ) : Vec3 ℚ :=
  sumVec Np (fun j => panelForce Np infM γ rho Vinf2 dA n j)

/-! ## Constructor attribute model (for the instantiation claim) -/

/-- The only mesh capability SupersonicSolver.__init__ consumes:
mesh.vertices (line 29). -/
structure MeshData where
  vertices : List (Vec3 ℚ)

/-- Python runtime error raised by reading a missing attribute. -/
inductive PyErr where
  | attributeError (attr : String)
deriving DecidableEq

/-- Attributes a Solver instance can carry after construction.  Reading an
attribute that no constructor assigned raises AttributeError, modelled by the
Option being none. -/
structure SolverAttrs where
  mesh : Option MeshData

/-- Solver.__init__ (solvers.py lines 12-13): the body is pass — it accepts
the keyword arguments and assigns no attribute, in particular not _mesh. -/
def solverInit (_kwargs_mesh : MeshData) : SolverAttrs := ⟨none⟩

/-- SupersonicSolver.__init__ (supersonic_solver.py lines 24-34): calls
super().__init__(**kwargs) and then evaluates self._mesh.vertices.shape[0]
(line 29).  Since no constructor on this path ever assigned self._mesh, the
attribute read is modelled by matching on the none field. -/
def supersonicInit (kwargs_mesh : MeshData) : Except PyErr (SolverAttrs × Nat) :=
  let attrs := solverInit kwargs_mesh
  match attrs.mesh with
  | none => .error (.attributeError "_mesh")
  | some m => .ok (attrs, m.vertices.length)

/-! ## Basic lemmas -/

theorem sumSc_congr {n : Nat} {f g : Nat → α} (h : ∀ i, i < n → f i = g i) :
    sumSc n f = sumSc n g := by
  induction n with
  | zero => rfl
  | succ m ih =>
    simp only [sumSc]
    rw [ih (fun i hi => h i (Nat.lt_succ_of_lt hi)), h m (Nat.lt_succ_self m)]

theorem in_dod_upstream_eq_true {B2 : α} {c0 r0 r1 : Vec3 α} :
    in_dod_upstream B2 c0 r0 r1 = true ↔
      B2 * inner3 ((r1.sub r0).sub (Vec3.smul (inner3 (r1.sub r0) c0) c0))
          ((r1.sub r0).sub (Vec3.smul (inner3 (r1.sub r0) c0) c0)) ≤
        inner3 (r1.sub r0) c0 * inner3 (r1.sub r0) c0 := by
  unfold in_dod_upstream
  simp

theorem in_dod_eq_true {B2 : α} {c0 r0 r1 : Vec3 α} :
    in_dod B2 c0 r0 r1 = true ↔
      0 < inner3 (r1.sub r0) c0 ∧
        B2 * inner3 ((r1.sub r0).sub (Vec3.smul (inner3 (r1.sub r0) c0) c0))
            ((r1.sub r0).sub (Vec3.smul (inner3 (r1.sub r0) c0) c0)) ≤
          inner3 (r1.sub r0) c0 * inner3 (r1.sub r0) c0 := by
  unfold in_dod
  split_ifs with h
  · rw [in_dod_upstream_eq_true]
    exact ⟨fun hh => ⟨h, hh⟩, fun hh => hh.2⟩
  · simp [h]

/-! ## Claim theorems: constructor and vortex-ring solver -/

/-- C3: constructing a SupersonicSolver raises AttributeError for every mesh
argument — its __init__ reads self._mesh.vertices but no constructor on that
path ever assigns self._mesh. -/
theorem c3_supersonic_init_raises (mesh : MeshData) :
    supersonicInit mesh = .error (.attributeError "_mesh") := rfl

/-- C2: the claim says the lifting coefficient matrix is the panel-ring matrix
plus the horseshoe-vortex matrix, each projected onto the field panel normal.
The code instead projects the panel-ring matrix twice (line 222 reads
self._panel_influence_matrix, not self._vortex_influence_matrix).  Evaluating
both at a one-panel input where the panel-ring entry dotted with the normal is
1 and the vortex entry is 0: the code's A entry is 2, the claimed entry is 1. -/
theorem c2_lifting_A_projects_panel_matrix_twice :
    liftingA (fun _ _ => ⟨1, 0, 0⟩) (fun _ => ⟨1, 0, 0⟩) 0 0 = 2 ∧
      liftingA_claimed (fun _ _ => ⟨1, 0, 0⟩) (fun _ _ => ⟨0, 0, 0⟩) (fun _ => ⟨1, 0, 0⟩) 0 0 = 1 ∧
      liftingA (fun _ _ => ⟨1, 0, 0⟩) (fun _ => ⟨1, 0, 0⟩) 0 0 ≠
        liftingA_claimed (fun _ _ => ⟨1, 0, 0⟩) (fun _ _ => ⟨0, 0, 0⟩) (fun _ => ⟨1, 0, 0⟩) 0 0 := by
  refine ⟨?_, ?_, ?_⟩ <;>
    norm_num [liftingA, liftingA_claimed, A_panels_of, A_vortices_code, inner3]

/-- C6 counterexample: for a Kutta edge between panels 0 and 1 with unit
induced velocity, the code assigns the SAME (negated) velocity to both
bordering rows; the rows are equal and the common value is not its own
negation, so no opposite-sign convention relates them. -/
theorem c6_counterexample :
    buildVortexMatrix [⟨0, 1⟩] (fun _ _ => ⟨1, 0, 0⟩) 0 0 = ⟨-1, 0, 0⟩ ∧
      buildVortexMatrix [⟨0, 1⟩] (fun _ _ => ⟨1, 0, 0⟩) 1 0 = ⟨-1, 0, 0⟩ ∧
      (⟨-1, 0, 0⟩ : Vec3 ℚ) ≠ Vec3.neg ⟨-1, 0, 0⟩ := by
  refine ⟨?_, ?_, ?_⟩
  · norm_num [buildVortexMatrix, Function.update, Vec3.neg]
  · norm_num [buildVortexMatrix, Function.update, Vec3.neg]
  · norm_num [Vec3.neg, Vec3.mk.injEq]

/-- C6 amended: each Kutta edge's trailing-vortex induced velocity is negated
and assigned (not accumulated) to the rows of BOTH bordering panels with the
same sign; stated for the last edge processed, whose assignment is the one
that survives. -/
theorem c6_amended_same_sign_rows (pre : List KuttaEdge) (e : KuttaEdge)
    (vinf : KuttaEdge → Nat → Vec3 ℚ) (cp : Nat) :
    buildVortexMatrix (pre ++ [e]) vinf e.p0 cp = (vinf e cp).neg ∧
      buildVortexMatrix (pre ++ [e]) vinf e.p1 cp = (vinf e cp).neg := by
  unfold buildVortexMatrix
  rw [List.foldl_append]
  simp only [List.foldl_cons, List.foldl_nil]
  constructor
  · by_cases h : e.p1 = e.p0
    · rw [h, Function.update_same]
    · rw [Function.update_noteq (fun hh => h hh.symm), Function.update_same]
  · rw [Function.update_same]

/-- C7 counterexample: one panel whose ring self-influence dotted with its
normal is 1 and whose tangency right-hand side is 1.  The stacked nonlifting
system is [[1],[1]] gamma = [1,0]; its unique least-squares solution is
gamma = 1/2, whose circulation sum is 1/2, not 0. -/
theorem c7_counterexample :
    LstsqUnique 2 1 (nonliftingA 1 (fun _ _ => 1)) (nonliftingB 1 (fun _ => 1))
        (fun _ => 1 / 2) ∧
      sumSc 1 (fun _ => (1 : ℚ) / 2) = 1 / 2 ∧ ((1 : ℚ) / 2 : ℚ) ≠ 0 := by
  have hval : ∀ γ' : Nat → ℚ,
      residSq 2 1 (nonliftingA 1 (fun _ _ => 1)) (nonliftingB 1 (fun _ => 1)) γ' =
        (γ' 0 - 1) * (γ' 0 - 1) + γ' 0 * γ' 0 := by
    intro γ'
    norm_num [residSq, rowResidual, sumSc, nonliftingA, nonliftingB]
  refine ⟨⟨?_, ?_⟩, by norm_num [sumSc], by norm_num⟩
  · intro γ'
    rw [hval, hval]
    nlinarith [sq_nonneg (γ' 0 - 1 / 2)]
  · intro γ' hγ' j hj
    interval_cases j
    have h1 := hγ' (fun _ => 1 / 2)
    rw [hval, hval] at h1
    nlinarith [sq_nonneg (γ' 0 - 1 / 2)]

/-- C7 amended: the nonlifting system is (N+1)xN — the first N rows are the
panel-tangency rows with right-hand side the negated freestream-normal
projection, the appended row is all ones with right-hand side 0 — and the
least-squares objective on the stacked system equals the tangency residual
plus the SQUARE of the circulation sum, so the appended row only drives the
sum toward zero (the solution's sum need not vanish, as the counterexample
shows). -/
theorem c7_amended_stacked_system (Np : Nat) (Ap : Nat → Nat → ℚ) (b : Nat → ℚ)
    (vinf : Vec3 ℚ) (n : Nat → Vec3 ℚ) (γ : Nat → ℚ) :
    (∀ i j, i < Np → nonliftingA Np Ap i j = Ap i j) ∧
      (∀ j, nonliftingA Np Ap Np j = 1) ∧
      (∀ i, i < Np → nonliftingB Np (bTangency vinf n) i = -inner3 vinf (n i)) ∧
      nonliftingB Np b Np = 0 ∧
      residSq (Np + 1) Np (nonliftingA Np Ap) (nonliftingB Np b) γ =
        residSq Np Np Ap b γ + sumSc Np γ * sumSc Np γ := by
  refine ⟨fun i j hi => by simp [nonliftingA, hi], fun j => by simp [nonliftingA],
    fun i hi => by simp [nonliftingB, bTangency, hi], by simp [nonliftingB], ?_⟩
  have hrow : ∀ i, i < Np →
      rowResidual Np (nonliftingA Np Ap) (nonliftingB Np b) γ i = rowResidual Np Ap b γ i := by
    intro i hi
    have hs : sumSc Np (fun j => nonliftingA Np Ap i j * γ j) =
        sumSc Np (fun j => Ap i j * γ j) :=
      sumSc_congr (fun j _ => by simp [nonliftingA, hi])
    unfold rowResidual
    rw [hs]
    simp [nonliftingB, hi]
  have hlast : rowResidual Np (nonliftingA Np Ap) (nonliftingB Np b) γ Np = sumSc Np γ := by
    have hs : sumSc Np (fun j => nonliftingA Np Ap Np j * γ j) = sumSc Np γ :=
      sumSc_congr (fun j _ => by simp [nonliftingA])
    unfold rowResidual
    rw [hs]
    simp [nonliftingB]
  unfold residSq
  simp only [sumSc]
  rw [hlast, sumSc_congr (fun i hi => by rw [hrow i hi])]

/-- C5: a single flat panel with the freestream in its plane and the zero
circulation solution.  The zero vector is indeed the unique least-squares
solution of the code's stacked nonlifting system, but because the code
reconstructs the local velocity as the circulation-weighted influence sum
WITHOUT adding the freestream (line 261), the local speed is 0, the pressure
coefficient is 1 (not 0 as claimed) and the net force is rho*Vinf2*dA*n =
(0,0,1) (not zero as claimed). -/
theorem c5_inplane_panel_code_values :
    inner3 (⟨1, 0, 0⟩ : Vec3 ℚ) (⟨0, 0, 1⟩ : Vec3 ℚ) = 0 ∧
      LstsqUnique 2 1 (nonliftingA 1 (A_panels_of (fun _ _ => ⟨0, 0, 2⟩) (fun _ => ⟨0, 0, 1⟩)))
        (nonliftingB 1 (bTangency ⟨1, 0, 0⟩ (fun _ => ⟨0, 0, 1⟩))) (fun _ => 0) ∧
      pressureCoeff 1 (fun _ _ => ⟨0, 0, 2⟩) (fun _ => 0) 1 0 = 1 ∧
      netForce 1 (fun _ _ => ⟨0, 0, 2⟩) (fun _ => 0) 1 1 (fun _ => 1) (fun _ => ⟨0, 0, 1⟩) =
        ⟨0, 0, 1⟩ ∧
      (⟨0, 0, 1⟩ : Vec3 ℚ) ≠ (⟨0, 0, 0⟩ : Vec3 ℚ) := by
  have hval : ∀ γ' : Nat → ℚ,
      residSq 2 1 (nonliftingA 1 (A_panels_of (fun _ _ => ⟨0, 0, 2⟩) (fun _ => ⟨0, 0, 1⟩)))
          (nonliftingB 1 (bTangency ⟨1, 0, 0⟩ (fun _ => ⟨0, 0, 1⟩))) γ' =
        (2 * γ' 0) * (2 * γ' 0) + γ' 0 * γ' 0 := by
    intro γ'
    simp only [residSq, rowResidual, sumSc, nonliftingA, nonliftingB, A_panels_of, bTangency,
      inner3]
    norm_num
  refine ⟨by norm_num [inner3], ⟨?_, ?_⟩, ?_, ?_, ?_⟩
  · intro γ'
    rw [hval, hval]
    nlinarith [sq_nonneg (γ' 0)]
  · intro γ' hγ' j hj
    interval_cases j
    have h1 := hγ' (fun _ => 0)
    rw [hval, hval] at h1
    have h2 : γ' 0 * γ' 0 = 0 := by nlinarith [mul_self_nonneg (γ' 0), mul_self_nonneg (2 * γ' 0)]
    simpa using mul_self_eq_zero.mp h2
  · norm_num [pressureCoeff, speedSq, velocities, sumVec, Vec3.smul, Vec3.add, inner3]
  · norm_num [netForce, panelForce, pressureCoeff, speedSq, velocities, sumVec, Vec3.smul,
      Vec3.add, inner3]
  · simp

/-- C8 counterexample: with M = 8/5 the point (1,1,0) relative to (0,0,0) is
directly downstream with axial offset x = 1 and radial offset 1, which is
within the claimed radius B*x = sqrt(39/25) > 1 — yet the membership
predicate of the code classifies it as NOT dependent (its radius condition is
r <= x/B, i.e. B2*r^2 <= x^2, and 39/25 > 1). -/
theorem c8_counterexample :
    in_dod (mach_B2 ((8 : ℚ) / 5)) ⟨1, 0, 0⟩ ⟨0, 0, 0⟩ ⟨1, 1, 0⟩ = false ∧
      (1 : ℝ) < Real.sqrt ((39 : ℝ) / 25) * 1 ∧ mach_B2 ((8 : ℚ) / 5) = 39 / 25 := by
  refine ⟨?_, ?_, by norm_num [mach_B2]⟩
  · norm_num [in_dod, in_dod_upstream, inner3, Vec3.sub, Vec3.smul, mach_B2]
  · rw [mul_one, Real.lt_sqrt (by norm_num)]
    norm_num

/-- C8 amended: with M = 1.6 = 8/5, alpha = beta = 0, set_condition computes
B_2 = M*M - 1 = 39/25, so B = sqrt(39/25) lies strictly between 1.2489 and
1.2490 (hence rounds to 1.2490); and for a reference point at the origin with
compressibility direction (1,0,0), a candidate with positive axial offset x is
classified dependent exactly when its radial offset r satisfies B2*r^2 <= x^2,
i.e. lies within radius x/B (not B*x). -/
theorem c8_amended_mach_cone (x yoff zoff : ℚ) (hx : 0 < x) :
    mach_B2 ((8 : ℚ) / 5) = 39 / 25 ∧
      (1.2489 : ℝ) < Real.sqrt ((mach_B2 ((8 : ℚ) / 5) : ℚ) : ℝ) ∧
      Real.sqrt ((mach_B2 ((8 : ℚ) / 5) : ℚ) : ℝ) < 1.2490 ∧
      (in_dod (mach_B2 ((8 : ℚ) / 5)) ⟨1, 0, 0⟩ ⟨0, 0, 0⟩ ⟨x, yoff, zoff⟩ = true ↔
        39 / 25 * (yoff * yoff + zoff * zoff) ≤ x * x) := by
  have hc : ((mach_B2 ((8 : ℚ) / 5) : ℚ) : ℝ) = 39 / 25 := by norm_num [mach_B2]
  refine ⟨by norm_num [mach_B2], ?_, ?_, ?_⟩
  · rw [hc, Real.lt_sqrt (by norm_num)]
    norm_num
  · rw [hc, Real.sqrt_lt' (by norm_num)]
    norm_num
  · rw [in_dod_eq_true]
    simp only [inner3, Vec3.sub, Vec3.smul, mach_B2]
    constructor
    · rintro ⟨-, h⟩
      nlinarith [h]
    · intro h
      refine ⟨by nlinarith, by nlinarith⟩

/-- C8 witness: the point (1, 1/2, 0) has positive axial offset 1 and its
radial offset 1/2 satisfies the corrected radius condition, so the code
classifies it as dependent. -/
theorem c8_witness :
    0 < (1 : ℚ) ∧
      in_dod (mach_B2 ((8 : ℚ) / 5)) ⟨1, 0, 0⟩ ⟨0, 0, 0⟩ ⟨1, 1 / 2, 0⟩ = true :=
  ⟨by norm_num, (c8_amended_mach_cone 1 (1 / 2) 0 (by norm_num)).2.2.2.mpr (by norm_num)⟩

/-! ## Sort lemmas for the argsort model -/

theorem insertByKey_perm [DecidableEq α] (key : Nat → α) (v : Nat) (l : List Nat) :
    (insertByKey key v l).Perm (v :: l) := by
  induction l with
  | nil => rfl
  | cons u rest ih =>
    simp only [insertByKey]
    split_ifs with h
    · exact (ih.cons u).trans (List.Perm.swap v u rest)
    · rfl

theorem argsortKey_perm [DecidableEq α] (key : Nat → α) (l : List Nat) :
    (argsortKey key l).Perm l := by
  induction l with
  | nil => rfl
  | cons v rest ih => exact (insertByKey_perm key v _).trans (ih.cons v)

theorem insertByKey_pairwise [DecidableEq α] {key : Nat → α} {v : Nat} {l : List Nat}
    (hl : l.Pairwise (fun a b => key a ≤ key b)) :
    (insertByKey key v l).Pairwise (fun a b => key a ≤ key b) := by
  induction l with
  | nil => simp [insertByKey]
  | cons u rest ih =>
    rw [List.pairwise_cons] at hl
    simp only [insertByKey]
    split_ifs with h
    · rw [List.pairwise_cons]
      refine ⟨?_, ih hl.2⟩
      intro b hb
      rcases List.mem_cons.mp ((insertByKey_perm key v rest).mem_iff.mp hb) with hb | hb
      · exact hb ▸ h
      · exact hl.1 b hb
    · rw [List.pairwise_cons]
      refine ⟨?_, List.pairwise_cons.mpr hl⟩
      intro b hb
      rcases List.mem_cons.mp hb with hb | hb
      · exact hb ▸ le_of_lt (lt_of_not_le h)
      · exact le_trans (le_of_lt (lt_of_not_le h)) (hl.1 b hb)

theorem argsortKey_pairwise [DecidableEq α] (key : Nat → α) (l : List Nat) :
    (argsortKey key l).Pairwise (fun a b => key a ≤ key b) := by
  induction l with
  | nil => exact List.Pairwise.nil
  | cons v rest ih => exact insertByKey_pairwise ih

theorem sorted_perm_range [DecidableEq α] (ctx : SuperCtx α) :
    ctx.sorted.Perm (List.range ctx.N) :=
  argsortKey_perm ctx.xc (List.range ctx.N)

theorem sorted_length [DecidableEq α] (ctx : SuperCtx α) : ctx.sorted.length = ctx.N := by
  rw [(sorted_perm_range ctx).length_eq, List.length_range]

theorem mem_sorted [DecidableEq α] (ctx : SuperCtx α) {v : Nat} :
    v ∈ ctx.sorted ↔ v < ctx.N := by
  rw [(sorted_perm_range ctx).mem_iff, List.mem_range]

theorem sorted_nodup [DecidableEq α] (ctx : SuperCtx α) : ctx.sorted.Nodup :=
  ((sorted_perm_range ctx).nodup_iff).mpr (List.nodup_range ctx.N)

theorem sortedInd_get [DecidableEq α] (ctx : SuperCtx α) {j : Nat} (hj : j < ctx.N) :
    ctx.sortedInd j = ctx.sorted.get ⟨j, by rw [sorted_length]; exact hj⟩ := by
  unfold SuperCtx.sortedInd
  exact List.getD_eq_get ctx.sorted 0 _

theorem sortedInd_lt [DecidableEq α] (ctx : SuperCtx α) {j : Nat} (hj : j < ctx.N) :
    ctx.sortedInd j < ctx.N := by
  rw [sortedInd_get ctx hj]
  exact (mem_sorted ctx).mp (List.get_mem ctx.sorted _ _)

theorem sortedInd_inj [DecidableEq α] (ctx : SuperCtx α) {i j : Nat} (hi : i < ctx.N)
    (hj : j < ctx.N) (h : ctx.sortedInd i = ctx.sortedInd j) : i = j := by
  rw [sortedInd_get ctx hi, sortedInd_get ctx hj] at h
  have := ((sorted_nodup ctx).get_inj_iff).mp h
  exact congrArg Fin.val this

theorem sortedInd_mono [DecidableEq α] (ctx : SuperCtx α) {i j : Nat} (hij : i ≤ j)
    (hj : j < ctx.N) : ctx.xc (ctx.sortedInd i) ≤ ctx.xc (ctx.sortedInd j) := by
  rcases Nat.lt_or_ge i j with hlt | hge
  · have hi : i < ctx.N := lt_trans hlt hj
    rw [sortedInd_get ctx hi, sortedInd_get ctx hj]
    have hp := (List.pairwise_iff_get).mp (argsortKey_pairwise ctx.xc (List.range ctx.N))
    exact hp _ _ (by simpa using hlt)
  · have : i = j := le_antisymm hij hge
    rw [this]

theorem sortedInd_surj [DecidableEq α] (ctx : SuperCtx α) {v : Nat} (hv : v < ctx.N) :
    ∃ j, j < ctx.N ∧ ctx.sortedInd j = v := by
  have hmem : v ∈ ctx.sorted := (mem_sorted ctx).mpr hv
  rcases List.mem_iff_get.mp hmem with ⟨n, hn⟩
  have hnN : n.val < ctx.N := lt_of_lt_of_eq n.isLt (sorted_length ctx)
  refine ⟨n.val, hnN, ?_⟩
  rw [sortedInd_get ctx hnN]
  exact (congrArg ctx.sorted.get (Fin.eta n _)).trans hn

/-! ## Geometry of the Mach-cone predicate -/

theorem inner3_self_nonneg (a : Vec3 α) : 0 ≤ inner3 a a := by
  unfold inner3
  nlinarith [mul_self_nonneg a.x, mul_self_nonneg a.y, mul_self_nonneg a.z]

theorem vec3_sub_eq_zero {a b : Vec3 α} : a.sub b = ⟨0, 0, 0⟩ ↔ a = b := by
  cases a; cases b
  simp [Vec3.sub, Vec3.mk.injEq, sub_eq_zero]

theorem inner3_self_nonpos_eq_zero {a : Vec3 α} (h : inner3 a a ≤ 0) : a = ⟨0, 0, 0⟩ := by
  unfold inner3 at h
  have hx : a.x * a.x = 0 :=
    le_antisymm (by nlinarith [mul_self_nonneg a.y, mul_self_nonneg a.z]) (mul_self_nonneg a.x)
  have hy : a.y * a.y = 0 :=
    le_antisymm (by nlinarith [mul_self_nonneg a.x, mul_self_nonneg a.z]) (mul_self_nonneg a.y)
  have hz : a.z * a.z = 0 :=
    le_antisymm (by nlinarith [mul_self_nonneg a.x, mul_self_nonneg a.y]) (mul_self_nonneg a.z)
  cases a
  simp only [Vec3.mk.injEq]
  exact ⟨mul_self_eq_zero.mp hx, mul_self_eq_zero.mp hy, mul_self_eq_zero.mp hz⟩

theorem inner3_cauchy_schwarz (a b : Vec3 α) :
    inner3 a b * inner3 a b ≤ inner3 a a * inner3 b b := by
  unfold inner3
  nlinarith [sq_nonneg (a.x * b.y - a.y * b.x), sq_nonneg (a.x * b.z - a.z * b.x),
    sq_nonneg (a.y * b.z - a.z * b.y)]

theorem inner3_add_left (a b c : Vec3 α) : inner3 (a.add b) c = inner3 a c + inner3 b c := by
  unfold inner3 Vec3.add
  ring

theorem inner3_add_add (a b : Vec3 α) :
    inner3 (a.add b) (a.add b) = inner3 a a + 2 * inner3 a b + inner3 b b := by
  unfold inner3 Vec3.add
  ring

theorem vec3_chain (p q s : Vec3 α) : s.sub p = (q.sub p).add (s.sub q) := by
  cases p; cases q; cases s
  simp only [Vec3.sub, Vec3.add, Vec3.mk.injEq]
  exact ⟨by ring, by ring, by ring⟩

theorem vec3_perp_split (c0 r1 r2 : Vec3 α) :
    (r1.add r2).sub (Vec3.smul (inner3 (r1.add r2) c0) c0) =
      (r1.sub (Vec3.smul (inner3 r1 c0) c0)).add (r2.sub (Vec3.smul (inner3 r2 c0) c0)) := by
  cases c0; cases r1; cases r2
  simp only [Vec3.sub, Vec3.add, Vec3.smul, inner3, Vec3.mk.injEq]
  exact ⟨by ring, by ring, by ring⟩

/-- Transitivity of the Mach-cone membership predicate: if q is in the cone of
p and s is in the cone of q then s is in the cone of p.  Needs the
compressibility direction to be a unit vector and B2 > 0. -/
theorem in_dod_trans {B2 : α} {c0 : Vec3 α} (hB : 0 < B2) {p q s : Vec3 α}
    (h1 : in_dod B2 c0 p q = true) (h2 : in_dod B2 c0 q s = true) :
    in_dod B2 c0 p s = true := by
  rw [in_dod_eq_true] at h1 h2 ⊢
  obtain ⟨hx1, hc1⟩ := h1
  obtain ⟨hx2, hc2⟩ := h2
  rw [vec3_chain p q s]
  constructor
  · rw [inner3_add_left]
    exact add_pos hx1 hx2
  · rw [vec3_perp_split, inner3_add_add, inner3_add_left]
    set x1 := inner3 (q.sub p) c0 with hx1d
    set x2 := inner3 (s.sub q) c0 with hx2d
    set rc1 := (q.sub p).sub (Vec3.smul x1 c0) with hrc1
    set rc2 := (s.sub q).sub (Vec3.smul x2 c0) with hrc2
    have hCS := inner3_cauchy_schwarz rc1 rc2
    have ha := inner3_self_nonneg rc1
    have hb := inner3_self_nonneg rc2
    have key : B2 * inner3 rc1 rc2 ≤ x1 * x2 := by
      have h4 : (B2 * inner3 rc1 rc2) * (B2 * inner3 rc1 rc2) ≤ (x1 * x1) * (x2 * x2) := by
        have s1 : (B2 * inner3 rc1 rc2) * (B2 * inner3 rc1 rc2) =
            B2 * B2 * (inner3 rc1 rc2 * inner3 rc1 rc2) := by ring
        have s2 : B2 * B2 * (inner3 rc1 rc2 * inner3 rc1 rc2) ≤
            B2 * B2 * (inner3 rc1 rc1 * inner3 rc2 rc2) := by
          apply mul_le_mul_of_nonneg_left hCS
          positivity
        have s3 : B2 * B2 * (inner3 rc1 rc1 * inner3 rc2 rc2) =
            (B2 * inner3 rc1 rc1) * (B2 * inner3 rc2 rc2) := by ring
        calc (B2 * inner3 rc1 rc2) * (B2 * inner3 rc1 rc2)
            = B2 * B2 * (inner3 rc1 rc2 * inner3 rc1 rc2) := s1
          _ ≤ B2 * B2 * (inner3 rc1 rc1 * inner3 rc2 rc2) := s2
          _ = (B2 * inner3 rc1 rc1) * (B2 * inner3 rc2 rc2) := s3
          _ ≤ (x1 * x1) * (x2 * x2) := by
              apply mul_le_mul hc1 hc2 (by positivity) (by positivity)
      nlinarith [h4, mul_pos hx1 hx2]
    nlinarith [key, hc1, hc2]

/-- On a pair already known to be weakly ordered along the compressibility
direction, the one-sided upstream predicate agrees with the full predicate
except that it also accepts an exactly coincident point. -/
theorem in_dod_upstream_iff {B2 : α} {c0 : Vec3 α} (hB : 0 < B2) {p q : Vec3 α}
    (hxc : 0 ≤ inner3 (q.sub p) c0) :
    (in_dod_upstream B2 c0 p q = true ↔ (in_dod B2 c0 p q = true ∨ q = p)) := by
  rcases lt_or_eq_of_le hxc with hpos | hzero
  · unfold in_dod
    rw [if_pos hpos]
    refine ⟨Or.inl, fun h => h.elim id fun he => ?_⟩
    exfalso
    rw [he] at hpos
    have : p.sub p = (⟨0, 0, 0⟩ : Vec3 α) := vec3_sub_eq_zero.mpr rfl
    rw [this] at hpos
    unfold inner3 at hpos
    simp at hpos
  · have hin : in_dod B2 c0 p q = false := by
      unfold in_dod
      rw [if_neg (by rw [← hzero]; exact lt_irrefl 0)]
    rw [hin]
    rw [in_dod_upstream_eq_true, ← hzero]
    constructor
    · intro h
      right
      have hrc0 : inner3 ((q.sub p).sub (Vec3.smul 0 c0)) ((q.sub p).sub (Vec3.smul 0 c0)) ≤ 0 := by
        by_contra hcon
        push_neg at hcon
        nlinarith [h]
      have hsm : Vec3.smul (0 : α) c0 = (⟨0, 0, 0⟩ : Vec3 α) := by
        cases c0
        simp [Vec3.smul]
      rw [hsm] at hrc0
      have hsub : (q.sub p).sub (⟨0, 0, 0⟩ : Vec3 α) = q.sub p := by
        cases p; cases q
        simp [Vec3.sub]
      rw [hsub] at hrc0
      exact vec3_sub_eq_zero.mp (inner3_self_nonpos_eq_zero hrc0)
    · intro h
      rcases h with h | h
      · simp at h
      · rw [h]
        have : p.sub p = (⟨0, 0, 0⟩ : Vec3 α) := vec3_sub_eq_zero.mpr rfl
        rw [this]
        unfold inner3 Vec3.sub Vec3.smul
        simp

theorem inner3_sub_left (a b c : Vec3 α) : inner3 (a.sub b) c = inner3 a c - inner3 b c := by
  unfold inner3 Vec3.sub
  ring

/-! ## State-update lemmas -/

theorem addDep_calculated (st : DodState) (ind u v : Nat) :
    (addDep st ind u).calculated v = st.calculated v := rfl

theorem addDep_array_other {ind v : Nat} (h : v ≠ ind) (st : DodState) (u w : Nat) :
    (addDep st ind u).dodArray v w = st.dodArray v w := by
  unfold addDep
  simp [Function.update_noteq h]

theorem addDep_list_other {ind v : Nat} (h : v ≠ ind) (st : DodState) (u : Nat) :
    (addDep st ind u).dodList v = st.dodList v := by
  unfold addDep
  simp [Function.update_noteq h]

theorem addDep_array_self (st : DodState) (ind u w : Nat) :
    (addDep st ind u).dodArray ind w = true ↔ st.dodArray ind w = true ∨ w = u := by
  unfold addDep
  simp only [Function.update_same, Function.update_apply]
  split_ifs with h
  · simp [h]
  · simp [h]

theorem addDep_list_self (st : DodState) (ind u : Nat) :
    (addDep st ind u).dodList ind = st.dodList ind ++ [u] := by
  unfold addDep
  simp

theorem addDep_array_mono {st : DodState} {v w : Nat} (ind u : Nat)
    (h : st.dodArray v w = true) : (addDep st ind u).dodArray v w = true := by
  rcases eq_or_ne v ind with rfl | hne
  · exact (addDep_array_self st v u w).mpr (Or.inl h)
  · rw [addDep_array_other hne]
    exact h

theorem mergeDeps_calculated (ind : Nat) (pts : List Nat) :
    ∀ st v, (mergeDeps st ind pts).calculated v = st.calculated v := by
  induction pts with
  | nil => intro st v; rfl
  | cons p rest ih =>
    intro st v
    unfold mergeDeps
    simp only [List.foldl_cons]
    rw [show List.foldl _ _ rest = mergeDeps (if st.dodArray ind p then st else addDep st ind p) ind rest from rfl]
    rw [ih]
    split_ifs <;> rfl

theorem mergeDeps_array_other {ind v : Nat} (h : v ≠ ind) (pts : List Nat) :
    ∀ st w, (mergeDeps st ind pts).dodArray v w = st.dodArray v w := by
  induction pts with
  | nil => intro st w; rfl
  | cons p rest ih =>
    intro st w
    unfold mergeDeps
    simp only [List.foldl_cons]
    rw [show List.foldl _ _ rest = mergeDeps (if st.dodArray ind p then st else addDep st ind p) ind rest from rfl]
    rw [ih]
    split_ifs
    · rfl
    · rw [addDep_array_other h]

theorem mergeDeps_list_other {ind v : Nat} (h : v ≠ ind) (pts : List Nat) :
    ∀ st, (mergeDeps st ind pts).dodList v = st.dodList v := by
  induction pts with
  | nil => intro st; rfl
  | cons p rest ih =>
    intro st
    unfold mergeDeps
    simp only [List.foldl_cons]
    rw [show List.foldl _ _ rest = mergeDeps (if st.dodArray ind p then st else addDep st ind p) ind rest from rfl]
    rw [ih]
    split_ifs
    · rfl
    · rw [addDep_list_other h]

theorem mergeDeps_array_iff (ind : Nat) (pts : List Nat) :
    ∀ st w, (mergeDeps st ind pts).dodArray ind w = true ↔
      st.dodArray ind w = true ∨ w ∈ pts := by
  induction pts with
  | nil => intro st w; simp [mergeDeps]
  | cons p rest ih =>
    intro st w
    unfold mergeDeps
    simp only [List.foldl_cons]
    rw [show List.foldl _ _ rest = mergeDeps (if st.dodArray ind p then st else addDep st ind p) ind rest from rfl]
    rw [ih]
    split_ifs with hp
    · constructor
      · rintro (h | h)
        · exact Or.inl h
        · exact Or.inr (List.mem_cons_of_mem p h)
      · rintro (h | h)
        · exact Or.inl h
        · rcases List.mem_cons.mp h with rfl | h
          · exact Or.inl hp
          · exact Or.inr h
    · rw [addDep_array_self]
      constructor
      · rintro ((h | h) | h)
        · exact Or.inl h
        · exact Or.inr (h ▸ List.mem_cons_self p rest)
        · exact Or.inr (List.mem_cons_of_mem p h)
      · rintro (h | h)
        · exact Or.inl (Or.inl h)
        · rcases List.mem_cons.mp h with rfl | h
          · exact Or.inl (Or.inr rfl)
          · exact Or.inr h

theorem addDep_agree {st : DodState} {ind : Nat} (h : RowAgree st ind) (u : Nat) :
    RowAgree (addDep st ind u) ind := by
  intro w
  rw [addDep_array_self, addDep_list_self, List.mem_append]
  simp [h w]

theorem mergeDeps_agree (ind : Nat) (pts : List Nat) :
    ∀ st, RowAgree st ind → RowAgree (mergeDeps st ind pts) ind := by
  induction pts with
  | nil => intro st h; exact h
  | cons p rest ih =>
    intro st h
    unfold mergeDeps
    simp only [List.foldl_cons]
    rw [show List.foldl _ _ rest = mergeDeps (if st.dodArray ind p then st else addDep st ind p) ind rest from rfl]
    split_ifs with hp
    · exact ih st h
    · exact ih _ (addDep_agree h p)

/-! ## SpecP lemmas -/

theorem specP_trans [DecidableEq α] {ctx : SuperCtx α} (hB : 0 < ctx.B2) {i j k : Nat}
    (h1 : SpecP ctx i j) (h2 : SpecP ctx j k) : SpecP ctx i k := by
  obtain ⟨hjN, hc1⟩ := h1
  obtain ⟨hkN, hc2⟩ := h2
  refine ⟨hkN, ?_⟩
  rcases hc1 with hcone1 | ⟨hpos1, hij⟩
  · rcases hc2 with hcone2 | ⟨hpos2, hjk⟩
    · exact Or.inl (in_dod_trans hB hcone1 hcone2)
    · exact Or.inl (by rw [hpos2]; exact hcone1)
  · rcases hc2 with hcone2 | ⟨hpos2, hjk⟩
    · rw [hpos1] at hcone2
      exact Or.inl hcone2
    · exact Or.inr ⟨by rw [hpos2, hpos1], lt_trans hij hjk⟩

theorem specP_lt [DecidableEq α] {ctx : SuperCtx α} {i j : Nat} (hiN : i < ctx.N)
    (h : SpecP ctx i j) : i < j := by
  obtain ⟨hjN, hc⟩ := h
  rcases hc with hcone | ⟨-, hij⟩
  · by_contra hcon
    push_neg at hcon
    have hmono := sortedInd_mono ctx hcon hiN
    have hlt : 0 < inner3 ((ctx.pos (ctx.sortedInd j)).sub (ctx.pos (ctx.sortedInd i))) ctx.c0 :=
      (in_dod_eq_true.mp hcone).1
    rw [inner3_sub_left] at hlt
    unfold SuperCtx.xc at hmono
    linarith
  · exact hij

theorem upstream_iff_specP [DecidableEq α] {ctx : SuperCtx α} (hB : 0 < ctx.B2) {i j : Nat}
    (hiN : i < ctx.N) (hjN : j < ctx.N) (hij : i < j) :
    (in_dod_upstream ctx.B2 ctx.c0 (ctx.pos (ctx.sortedInd i)) (ctx.pos (ctx.sortedInd j)) =
      true) ↔ SpecP ctx i j := by
  have hord : 0 ≤ inner3 ((ctx.pos (ctx.sortedInd j)).sub (ctx.pos (ctx.sortedInd i))) ctx.c0 := by
    rw [inner3_sub_left]
    have := sortedInd_mono ctx (le_of_lt hij) hjN
    unfold SuperCtx.xc at this
    linarith
  rw [in_dod_upstream_iff hB hord]
  unfold SpecP
  constructor
  · rintro (h | h)
    · exact ⟨hjN, Or.inl h⟩
    · exact ⟨hjN, Or.inr ⟨h, hij⟩⟩
  · rintro ⟨-, h | h⟩
    · exact Or.inl h
    · exact Or.inr h.1

/-! ## GoodState and StepOut helpers -/

theorem goodState_mono [DecidableEq α] {ctx : SuperCtx α} {A A' : Nat → Prop}
    (hAA : ∀ v, A v → A' v) {st : DodState} (h : GoodState ctx A st) : GoodState ctx A' st := by
  obtain ⟨h1, h2⟩ := h
  refine ⟨fun i hi => ?_, h2⟩
  obtain ⟨ha, hb, hc⟩ := h1 i hi
  exact ⟨ha, hb, fun hcalc hA => hc hcalc (fun hA0 => hA (hAA _ hA0))⟩

theorem goodState_initial [DecidableEq α] (ctx : SuperCtx α) :
    GoodState ctx (fun _ => False) initDodState := by
  constructor
  · intro i hi
    refine ⟨fun u => by simp [initDodState], fun h => by simp [initDodState] at h, ?_⟩
    intro _ _
    exact ⟨fun u => rfl, rfl⟩
  · intro v _
    exact ⟨rfl, fun u => rfl, rfl⟩

theorem stepOut_refl [DecidableEq α] (ctx : SuperCtx α) (lo ex : Nat) (st : DodState) :
    StepOut ctx lo ex st st :=
  ⟨fun _ h => h, fun _ h => Or.inl h, fun _ _ => ⟨fun _ => rfl, rfl⟩,
    fun _ _ _ => ⟨fun _ => rfl, rfl⟩⟩

theorem stepOut_comp [DecidableEq α] {ctx : SuperCtx α} {lo1 lo2 lo ex : Nat}
    {st1 st2 st3 : DodState} (h1 : StepOut ctx lo1 ex st1 st2) (h2 : StepOut ctx lo2 ex st2 st3)
    (hl1 : lo ≤ lo1) (hl2 : lo ≤ lo2) : StepOut ctx lo ex st1 st3 := by
  obtain ⟨m1, n1, f1, u1⟩ := h1
  obtain ⟨m2, n2, f2, u2⟩ := h2
  refine ⟨fun v h => m2 v (m1 v h), ?_, ?_, ?_⟩
  · intro v h
    rcases n2 v h with h' | ⟨j, hj1, hj2, hj3⟩
    · rcases n1 v h' with h'' | ⟨j, hj1, hj2, hj3⟩
      · exact Or.inl h''
      · exact Or.inr ⟨j, le_trans hl1 hj1, hj2, hj3⟩
    · exact Or.inr ⟨j, le_trans hl2 hj1, hj2, hj3⟩
  · intro v h
    obtain ⟨fa, fb⟩ := f1 v h
    obtain ⟨ga, gb⟩ := f2 v (m1 v h)
    exact ⟨fun u => (ga u).trans (fa u), gb.trans fb⟩
  · intro v hex h
    have h2' : st2.calculated v = false := by
      cases hc : st2.calculated v
      · rfl
      · exact absurd (m2 v hc) (by simp [h])
    obtain ⟨ga, gb⟩ := u2 v hex h
    obtain ⟨fa, fb⟩ := u1 v hex h2'
    exact ⟨fun u => (ga u).trans (fa u), gb.trans fb⟩

theorem dodState_mk_calculated (a : Nat → Nat → Bool) (l : Nat → List Nat) (c : Nat → Bool) :
    (DodState.mk a l c).calculated = c := rfl

/-! ## Fuel independence of the interpreter -/

theorem dodFuelBound_pos [DecidableEq α] (ctx : SuperCtx α) (task : DodTask) :
    1 ≤ dodFuelBound ctx task := by
  cases task <;> simp only [dodFuelBound] <;> split_ifs <;> omega

theorem calc_dod_fuel_eq [DecidableEq α] (ctx : SuperCtx α) :
    ∀ f1 f2 task st, dodFuelBound ctx task ≤ f1 → dodFuelBound ctx task ≤ f2 →
      calc_dod ctx f1 task st = calc_dod ctx f2 task st := by
  intro f1
  induction f1 using Nat.strong_induction_on with
  | _ f1 ih =>
    intro f2 task st h1 h2
    have hb := dodFuelBound_pos ctx task
    obtain ⟨f1', rfl⟩ : ∃ k, f1 = k + 1 := ⟨f1 - 1, by omega⟩
    obtain ⟨f2', rfl⟩ : ∃ k, f2 = k + 1 := ⟨f2 - 1, by omega⟩
    cases task with
    | calcVert ind i =>
      simp only [calc_dod]
      split_ifs with hc
      · rfl
      · have harith1 : dodFuelBound ctx (.scanVert ind (i + 1)) ≤ f1' := by
          simp only [dodFuelBound] at h1 ⊢
          split_ifs at h1 ⊢ <;> omega
        have harith2 : dodFuelBound ctx (.scanVert ind (i + 1)) ≤ f2' := by
          simp only [dodFuelBound] at h2 ⊢
          split_ifs at h2 ⊢ <;> omega
        rw [ih f1' (Nat.lt_succ_self f1') f2' (.scanVert ind (i + 1)) st harith1 harith2]
    | scanVert ind j =>
      simp only [calc_dod]
      split_ifs with hjN harr hpred
      · have hs1 : dodFuelBound ctx (.scanVert ind (j + 1)) ≤ f1' := by
          simp only [dodFuelBound] at h1 ⊢
          split_ifs at h1 ⊢ <;> omega
        have hs2 : dodFuelBound ctx (.scanVert ind (j + 1)) ≤ f2' := by
          simp only [dodFuelBound] at h2 ⊢
          split_ifs at h2 ⊢ <;> omega
        exact ih f1' (Nat.lt_succ_self f1') f2' (.scanVert ind (j + 1)) st hs1 hs2
      · have hc1 : dodFuelBound ctx (.calcVert (ctx.sortedInd j) j) ≤ f1' := by
          simp only [dodFuelBound] at h1 ⊢
          split_ifs at h1 ⊢ <;> omega
        have hc2 : dodFuelBound ctx (.calcVert (ctx.sortedInd j) j) ≤ f2' := by
          simp only [dodFuelBound] at h2 ⊢
          split_ifs at h2 ⊢ <;> omega
        have hs1 : dodFuelBound ctx (.scanVert ind (j + 1)) ≤ f1' := by
          simp only [dodFuelBound] at h1 ⊢
          split_ifs at h1 ⊢ <;> omega
        have hs2 : dodFuelBound ctx (.scanVert ind (j + 1)) ≤ f2' := by
          simp only [dodFuelBound] at h2 ⊢
          split_ifs at h2 ⊢ <;> omega
        rw [ih f1' (Nat.lt_succ_self f1') f2' (.calcVert (ctx.sortedInd j) j)
          (addDep st ind (ctx.sortedInd j)) hc1 hc2]
        exact ih f1' (Nat.lt_succ_self f1') f2' (.scanVert ind (j + 1)) _ hs1 hs2
      · have hs1 : dodFuelBound ctx (.scanVert ind (j + 1)) ≤ f1' := by
          simp only [dodFuelBound] at h1 ⊢
          split_ifs at h1 ⊢ <;> omega
        have hs2 : dodFuelBound ctx (.scanVert ind (j + 1)) ≤ f2' := by
          simp only [dodFuelBound] at h2 ⊢
          split_ifs at h2 ⊢ <;> omega
        exact ih f1' (Nat.lt_succ_self f1') f2' (.scanVert ind (j + 1)) st hs1 hs2
      · rfl

/-! ## The main invariant of the recursive search -/

theorem calc_dod_spec [DecidableEq α] (ctx : SuperCtx α) (hB : 0 < ctx.B2) :
    ∀ fuel : Nat,
      (∀ i st A, i < ctx.N →
        dodFuelBound ctx (.calcVert (ctx.sortedInd i) i) ≤ fuel →
        ABound ctx A i → GoodState ctx A st →
        CalcConcl ctx A i st (calc_dod ctx fuel (.calcVert (ctx.sortedInd i) i) st)) ∧
      (∀ i j st A, i < ctx.N → i < j →
        dodFuelBound ctx (.scanVert (ctx.sortedInd i) j) ≤ fuel →
        ABound ctx A i →
        GoodState ctx (fun v => A v ∨ v = ctx.sortedInd i) st →
        st.calculated (ctx.sortedInd i) = false →
        ScanInv ctx i j st →
        ScanConcl ctx A i j st (calc_dod ctx fuel (.scanVert (ctx.sortedInd i) j) st)) := by
  intro fuel
  induction fuel with
  | zero =>
    constructor
    · intro i st A _ hfuel _ _
      exact absurd (le_trans (dodFuelBound_pos ctx _) hfuel) (by omega)
    · intro i j st A _ _ hfuel _ _ _ _
      exact absurd (le_trans (dodFuelBound_pos ctx _) hfuel) (by omega)
  | succ f ihp =>
    obtain ⟨ihcalc, ihscan⟩ := ihp
    constructor
    · -- calc part
      intro i st A hiN hfuel hA hGood
      simp only [calc_dod]
      split_ifs with hc
      · exact ⟨hGood, stepOut_refl ctx i _ st, hc⟩
      · have hcf : st.calculated (ctx.sortedInd i) = false := by simpa using hc
        have hnotA : ¬ A (ctx.sortedInd i) := by
          intro hAi
          rcases hA _ hAi with ⟨i', hi'lt, heq⟩
          have hi'N : i' < ctx.N := lt_trans hi'lt hiN
          have := sortedInd_inj ctx hiN hi'N heq
          omega
        have hEmpty : RowEmpty st (ctx.sortedInd i) := (hGood.1 i hiN).2.2 hcf hnotA
        have hGood' : GoodState ctx (fun v => A v ∨ v = ctx.sortedInd i) st :=
          goodState_mono (fun v h => Or.inl h) hGood
        have hSI : ScanInv ctx i (i + 1) st := by
          refine ⟨?_, ?_, ?_⟩
          · intro u hu
            rw [hEmpty.1 u] at hu
            exact absurd hu (by simp)
          · intro k hk1 hk2 _
            exact absurd hk2 (by omega)
          · intro k l _ hk _
            rw [hEmpty.1 _] at hk
            exact absurd hk (by simp)
        have hbarith : dodFuelBound ctx (.scanVert (ctx.sortedInd i) (i + 1)) ≤ f := by
          simp only [dodFuelBound] at hfuel ⊢
          split_ifs at hfuel ⊢ <;> omega
        obtain ⟨hG2, hSO, hflag, hSIN⟩ :=
          ihscan i (i + 1) st A hiN (Nat.lt_succ_self i) hbarith hA hGood' hcf hSI
        refine ⟨⟨?_, ?_⟩, ⟨?_, ?_, ?_, ?_⟩, ?_⟩
        · -- GoodState part 1
          intro k hkN
          have hk3 := hG2.1 k hkN
          by_cases hki : ctx.sortedInd k = ctx.sortedInd i
          · have hki' : k = i := sortedInd_inj ctx hkN hiN hki
            subst hki'
            rw [hki]
            refine ⟨hki ▸ hk3.1, ?_, ?_⟩
            · intro _ u
              constructor
              · intro hu
                exact hSIN.1 u hu
              · rintro ⟨k', rfl, hk'⟩
                exact hSIN.2.1 k' (specP_lt hkN hk') hk'.1 hk'
            · intro hcon _
              simp [Function.update_same] at hcon
          · refine ⟨hk3.1, ?_, ?_⟩
            · intro hcalc
              rw [show ({ calc_dod ctx f (.scanVert (ctx.sortedInd i) (i+1)) st with
                calculated := Function.update (calc_dod ctx f (.scanVert (ctx.sortedInd i) (i+1)) st).calculated (ctx.sortedInd i) true } : DodState).calculated (ctx.sortedInd k) =
                Function.update (calc_dod ctx f (.scanVert (ctx.sortedInd i) (i+1)) st).calculated (ctx.sortedInd i) true (ctx.sortedInd k) from rfl,
                Function.update_noteq hki] at hcalc
              exact hk3.2.1 hcalc
            · intro hcalc hAk
              rw [show ({ calc_dod ctx f (.scanVert (ctx.sortedInd i) (i+1)) st with
                calculated := Function.update (calc_dod ctx f (.scanVert (ctx.sortedInd i) (i+1)) st).calculated (ctx.sortedInd i) true } : DodState).calculated (ctx.sortedInd k) =
                Function.update (calc_dod ctx f (.scanVert (ctx.sortedInd i) (i+1)) st).calculated (ctx.sortedInd i) true (ctx.sortedInd k) from rfl,
                Function.update_noteq hki] at hcalc
              exact hk3.2.2 hcalc (fun h => h.elim hAk hki)
        · -- GoodState part 2
          intro v hvs
          obtain ⟨hvc, hve⟩ := hG2.2 v hvs
          have hvi : v ≠ ctx.sortedInd i := by
            intro heq
            exact hvs (heq ▸ (mem_sorted ctx).mpr (sortedInd_lt ctx hiN))
          refine ⟨?_, hve⟩
          rw [dodState_mk_calculated, Function.update_noteq hvi]
          exact hvc
        · -- StepOut monotone
          intro v hv
          rw [dodState_mk_calculated]
          by_cases hvi : v = ctx.sortedInd i
          · rw [hvi, Function.update_same]
          · rw [Function.update_noteq hvi]
            exact hSO.1 v hv
        · -- StepOut new flags
          intro v hv
          by_cases hvi : v = ctx.sortedInd i
          · exact Or.inr ⟨i, le_refl i, hiN, hvi⟩
          · rw [dodState_mk_calculated, Function.update_noteq hvi] at hv
            rcases hSO.2.1 v hv with h | ⟨j', hj1, hj2, hj3⟩
            · exact Or.inl h
            · exact Or.inr ⟨j', le_trans (Nat.le_succ i) hj1, hj2, hj3⟩
        · -- StepOut frozen
          intro v hv
          exact hSO.2.2.1 v hv
        · -- StepOut untouched
          intro v hvex hv
          rw [dodState_mk_calculated, Function.update_noteq hvex] at hv
          exact hSO.2.2.2 v hvex hv
        · -- flag set
          rw [dodState_mk_calculated, Function.update_same]
    · -- scan part
      intro i j st A hiN hij hfuel hA hGood hflag hSI
      simp only [calc_dod]
      split_ifs with hjN harr hpred
      · -- u already recorded: skip
        have hSI' : ScanInv ctx i (j + 1) st := by
          refine ⟨hSI.1, ?_, hSI.2.2⟩
          intro k hk1 hk2 hspec
          rcases Nat.lt_succ_iff_lt_or_eq.mp hk2 with hk | rfl
          · exact hSI.2.1 k hk1 hk hspec
          · exact harr
        have hsb : dodFuelBound ctx (.scanVert (ctx.sortedInd i) (j + 1)) ≤ f := by
          simp only [dodFuelBound] at hfuel ⊢
          split_ifs at hfuel ⊢ <;> omega
        obtain ⟨g1, g2, g3, g4⟩ :=
          ihscan i (j + 1) st A hiN (by omega) hsb hA hGood hflag hSI'
        exact ⟨g1, stepOut_comp (stepOut_refl ctx j _ st) g2 (le_refl j) (Nat.le_succ j), g3, g4⟩
      · -- new dependency found
        have hspecij : SpecP ctx i j := (upstream_iff_specP hB hiN hjN hij).mp hpred
        have hne_ij : ctx.sortedInd i ≠ ctx.sortedInd j := by
          intro heq
          have := sortedInd_inj ctx hiN hjN heq
          omega
        have hGood1 : GoodState ctx (fun v => A v ∨ v = ctx.sortedInd i)
            (addDep st (ctx.sortedInd i) (ctx.sortedInd j)) := by
          constructor
          · intro k hkN
            obtain ⟨ga, gb, gc⟩ := hGood.1 k hkN
            by_cases hki : ctx.sortedInd k = ctx.sortedInd i
            · have hk : k = i := sortedInd_inj ctx hkN hiN hki
              subst hk
              rw [hki]
              refine ⟨addDep_agree (hki ▸ ga) _, ?_, ?_⟩
              · intro hcalc
                rw [addDep_calculated, hflag] at hcalc
                simp at hcalc
              · intro _ hAk
                exact absurd (Or.inr rfl) hAk
            · refine ⟨?_, ?_, ?_⟩
              · intro u'
                rw [addDep_array_other hki, addDep_list_other hki]
                exact ga u'
              · intro hcalc u'
                rw [addDep_calculated] at hcalc
                rw [addDep_array_other hki]
                exact gb hcalc u'
              · intro hcalc hAk
                rw [addDep_calculated] at hcalc
                obtain ⟨ea, eb⟩ := gc hcalc hAk
                exact ⟨fun u' => by rw [addDep_array_other hki]; exact ea u',
                  by rw [addDep_list_other hki]; exact eb⟩
          · intro v hvs
            obtain ⟨hvc, hve⟩ := hGood.2 v hvs
            have hvi : v ≠ ctx.sortedInd i := by
              intro heq
              exact hvs (heq ▸ (mem_sorted ctx).mpr (sortedInd_lt ctx hiN))
            refine ⟨by rw [addDep_calculated]; exact hvc,
              fun u' => by rw [addDep_array_other hvi]; exact hve.1 u',
              by rw [addDep_list_other hvi]; exact hve.2⟩
        have hA' : ABound ctx (fun v => A v ∨ v = ctx.sortedInd i) j := by
          intro a ha
          rcases ha with ha | rfl
          · rcases hA a ha with ⟨i', h1, h2⟩
            exact ⟨i', lt_trans h1 hij, h2⟩
          · exact ⟨i, hij, rfl⟩
        have hcb : dodFuelBound ctx (.calcVert (ctx.sortedInd j) j) ≤ f := by
          simp only [dodFuelBound] at hfuel ⊢
          split_ifs at hfuel ⊢ <;> omega
        obtain ⟨hG2, hSO2, hcalc2⟩ :=
          ihcalc j (addDep st (ctx.sortedInd i) (ctx.sortedInd j))
            (fun v => A v ∨ v = ctx.sortedInd i) hjN hcb hA' hGood1
        set st2 := calc_dod ctx f (.calcVert (ctx.sortedInd j) j)
          (addDep st (ctx.sortedInd i) (ctx.sortedInd j)) with hst2
        have hflag2 : st2.calculated (ctx.sortedInd i) = false := by
          cases hcc : st2.calculated (ctx.sortedInd i)
          · rfl
          · exfalso
            rcases hSO2.2.1 _ hcc with h | ⟨k, hk1, hk2, hk3⟩
            · rw [addDep_calculated, hflag] at h
              simp at h
            · have := sortedInd_inj ctx hiN hk2 hk3
              omega
        have hrow2 : (∀ u', st2.dodArray (ctx.sortedInd i) u' =
            (addDep st (ctx.sortedInd i) (ctx.sortedInd j)).dodArray (ctx.sortedInd i) u') ∧
            st2.dodList (ctx.sortedInd i) =
              (addDep st (ctx.sortedInd i) (ctx.sortedInd j)).dodList (ctx.sortedInd i) :=
          hSO2.2.2.2 _ hne_ij hflag2
        have hjG := hG2.1 j hjN
        have hRowSpecJ : RowSpec ctx st2 j := hjG.2.1 hcalc2
        have hAgreeJ : RowAgree st2 (ctx.sortedInd j) := hjG.1
        set st3 := mergeDeps st2 (ctx.sortedInd i) (st2.dodList (ctx.sortedInd j)) with hst3
        have harr3 : ∀ w, st3.dodArray (ctx.sortedInd i) w = true ↔
            st.dodArray (ctx.sortedInd i) w = true ∨ w = ctx.sortedInd j ∨
              ∃ k, w = ctx.sortedInd k ∧ SpecP ctx j k := by
          intro w
          rw [hst3, mergeDeps_array_iff]
          constructor
          · rintro (h | h)
            · rw [hrow2.1 w] at h
              rcases (addDep_array_self st _ _ w).mp h with h | h
              · exact Or.inl h
              · exact Or.inr (Or.inl h)
            · have := (hAgreeJ w).mpr h
              rcases (hRowSpecJ w).mp this with ⟨k, rfl, hk⟩
              exact Or.inr (Or.inr ⟨k, rfl, hk⟩)
          · rintro (h | h | ⟨k, rfl, hk⟩)
            · exact Or.inl (by rw [hrow2.1 w]; exact (addDep_array_self st _ _ w).mpr (Or.inl h))
            · exact Or.inl (by rw [hrow2.1 w]; exact (addDep_array_self st _ _ w).mpr (Or.inr h))
            · exact Or.inr ((hAgreeJ _).mp ((hRowSpecJ _).mpr ⟨k, rfl, hk⟩))
        have hAgreeI2 : RowAgree st2 (ctx.sortedInd i) := by
          intro w
          rw [hrow2.1 w, hrow2.2]
          exact addDep_agree (hGood.1 i hiN).1 _ w
        have hGood3 : GoodState ctx (fun v => A v ∨ v = ctx.sortedInd i) st3 := by
          constructor
          · intro k hkN
            obtain ⟨ga, gb, gc⟩ := hG2.1 k hkN
            by_cases hki : ctx.sortedInd k = ctx.sortedInd i
            · have hk : k = i := sortedInd_inj ctx hkN hiN hki
              subst hk
              rw [hki]
              refine ⟨hst3 ▸ mergeDeps_agree _ _ _ (hki ▸ hAgreeI2), ?_, ?_⟩
              · intro hcalc
                rw [hst3, mergeDeps_calculated, hki] at hcalc
                rw [hflag2] at hcalc
                simp at hcalc
              · intro _ hAk
                exact absurd (Or.inr rfl) hAk
            · refine ⟨?_, ?_, ?_⟩
              · intro u'
                rw [hst3, mergeDeps_array_other hki, mergeDeps_list_other hki]
                exact ga u'
              · intro hcalc u'
                rw [hst3, mergeDeps_calculated] at hcalc
                rw [hst3, mergeDeps_array_other hki]
                exact gb hcalc u'
              · intro hcalc hAk
                rw [hst3, mergeDeps_calculated] at hcalc
                obtain ⟨ea, eb⟩ := gc hcalc hAk
                exact ⟨fun u' => by rw [hst3, mergeDeps_array_other hki]; exact ea u',
                  by rw [hst3, mergeDeps_list_other hki]; exact eb⟩
          · intro v hvs
            obtain ⟨hvc, hve⟩ := hG2.2 v hvs
            have hvi : v ≠ ctx.sortedInd i := by
              intro heq
              exact hvs (heq ▸ (mem_sorted ctx).mpr (sortedInd_lt ctx hiN))
            refine ⟨by rw [hst3, mergeDeps_calculated]; exact hvc,
              fun u' => by rw [hst3, mergeDeps_array_other hvi]; exact hve.1 u',
              by rw [hst3, mergeDeps_list_other hvi]; exact hve.2⟩
        have hflag3 : st3.calculated (ctx.sortedInd i) = false := by
          rw [hst3, mergeDeps_calculated]
          exact hflag2
        have hSI3 : ScanInv ctx i (j + 1) st3 := by
          refine ⟨?_, ?_, ?_⟩
          · intro u' hu'
            rcases (harr3 u').mp hu' with h | h | ⟨k, rfl, hk⟩
            · exact hSI.1 u' h
            · exact ⟨j, h, hspecij⟩
            · exact ⟨k, rfl, specP_trans hB hspecij hk⟩
          · intro k hk1 hk2 hspec
            rcases Nat.lt_succ_iff_lt_or_eq.mp hk2 with hk | rfl
            · exact (harr3 _).mpr (Or.inl (hSI.2.1 k hk1 hk hspec))
            · exact (harr3 _).mpr (Or.inr (Or.inl rfl))
          · intro k l hkN hk hspec
            rcases (harr3 _).mp hk with h | h | ⟨k', hkk', hk'⟩
            · exact (harr3 _).mpr (Or.inl (hSI.2.2 k l hkN h hspec))
            · have hkj : k = j := sortedInd_inj ctx hkN hjN h
              subst hkj
              exact (harr3 _).mpr (Or.inr (Or.inr ⟨l, rfl, hspec⟩))
            · have hk'N : k' < ctx.N := hk'.1
              have hkk : k = k' := sortedInd_inj ctx hkN hk'N hkk'
              subst hkk
              exact (harr3 _).mpr (Or.inr (Or.inr ⟨l, rfl, specP_trans hB hk' hspec⟩))
        have hSOa : StepOut ctx j (ctx.sortedInd i) st
            (addDep st (ctx.sortedInd i) (ctx.sortedInd j)) := by
          refine ⟨fun v h => by rw [addDep_calculated]; exact h,
            fun v h => Or.inl (by rwa [addDep_calculated] at h), ?_, ?_⟩
          · intro v hv
            have hvi : v ≠ ctx.sortedInd i := by
              intro heq
              rw [heq, hflag] at hv
              simp at hv
            exact ⟨fun u' => addDep_array_other hvi st _ u', addDep_list_other hvi st _⟩
          · intro v hvi _
            exact ⟨fun u' => addDep_array_other hvi st _ u', addDep_list_other hvi st _⟩
        have hSOb : StepOut ctx j (ctx.sortedInd i)
            (addDep st (ctx.sortedInd i) (ctx.sortedInd j)) st2 := by
          obtain ⟨m, n, fr, un⟩ := hSO2
          refine ⟨m, n, fr, ?_⟩
          intro v hvi hv
          by_cases hvj : v = ctx.sortedInd j
          · rw [hvj, hcalc2] at hv
            simp at hv
          · exact un v hvj hv
        have hSOc : StepOut ctx j (ctx.sortedInd i) st2 st3 := by
          refine ⟨fun v h => by rw [hst3, mergeDeps_calculated]; exact h,
            fun v h => Or.inl (by rw [hst3, mergeDeps_calculated] at h; exact h), ?_, ?_⟩
          · intro v hv
            have hvi : v ≠ ctx.sortedInd i := by
              intro heq
              rw [heq, hflag2] at hv
              simp at hv
            exact ⟨fun u' => by rw [hst3, mergeDeps_array_other hvi],
              by rw [hst3, mergeDeps_list_other hvi]⟩
          · intro v hvi _
            exact ⟨fun u' => by rw [hst3, mergeDeps_array_other hvi],
              by rw [hst3, mergeDeps_list_other hvi]⟩
        have hSO3 : StepOut ctx j (ctx.sortedInd i) st st3 :=
          stepOut_comp (stepOut_comp hSOa hSOb (le_refl j) (le_refl j)) hSOc
            (le_refl j) (le_refl j)
        have hsb : dodFuelBound ctx (.scanVert (ctx.sortedInd i) (j + 1)) ≤ f := by
          simp only [dodFuelBound] at hfuel ⊢
          split_ifs at hfuel ⊢ <;> omega
        obtain ⟨g1, g2, g3, g4⟩ :=
          ihscan i (j + 1) st3 A hiN (by omega) hsb hA hGood3 hflag3 hSI3
        refine ⟨g1, stepOut_comp hSO3 g2 (le_refl j) (Nat.le_succ j), ?_, g4⟩
        rw [g3, hflag3, hflag]
      · -- predicate rejects: skip
        have hnspec : ¬ SpecP ctx i j := fun hs =>
          hpred ((upstream_iff_specP hB hiN hjN hij).mpr hs)
        have hSI' : ScanInv ctx i (j + 1) st := by
          refine ⟨hSI.1, ?_, hSI.2.2⟩
          intro k hk1 hk2 hspec
          rcases Nat.lt_succ_iff_lt_or_eq.mp hk2 with hk | rfl
          · exact hSI.2.1 k hk1 hk hspec
          · exact absurd hspec hnspec
        have hsb : dodFuelBound ctx (.scanVert (ctx.sortedInd i) (j + 1)) ≤ f := by
          simp only [dodFuelBound] at hfuel ⊢
          split_ifs at hfuel ⊢ <;> omega
        obtain ⟨g1, g2, g3, g4⟩ :=
          ihscan i (j + 1) st A hiN (by omega) hsb hA hGood hflag hSI'
        exact ⟨g1, stepOut_comp (stepOut_refl ctx j _ st) g2 (le_refl j) (Nat.le_succ j), g3, g4⟩
      · -- j ≥ N: loop over
        have hSIN : ScanInv ctx i ctx.N st := by
          refine ⟨hSI.1, ?_, hSI.2.2⟩
          intro k hk1 hk2 hspec
          exact hSI.2.1 k hk1 (lt_of_lt_of_le hk2 (le_of_not_lt hjN)) hspec
        exact ⟨hGood, stepOut_refl ctx j _ st, rfl, hSIN⟩

/-! ## From the invariant to the final state of the search -/

theorem run_search_fold [DecidableEq α] (ctx : SuperCtx α) (hB : 0 < ctx.B2) :
    ∀ (l : List Nat) (st : DodState), (∀ x ∈ l, x < ctx.N) →
      GoodState ctx (fun _ => False) st →
      GoodState ctx (fun _ => False)
        (l.foldl (fun s i => calc_dod ctx (2 * ctx.N + 2) (.calcVert (ctx.sortedInd i) i) s) st) ∧
      (∀ x ∈ l,
        (l.foldl (fun s i => calc_dod ctx (2 * ctx.N + 2) (.calcVert (ctx.sortedInd i) i) s)
          st).calculated (ctx.sortedInd x) = true) ∧
      (∀ v, st.calculated v = true →
        (l.foldl (fun s i => calc_dod ctx (2 * ctx.N + 2) (.calcVert (ctx.sortedInd i) i) s)
          st).calculated v = true) := by
  intro l
  induction l with
  | nil =>
    intro st _ hGood
    exact ⟨hGood, fun x hx => absurd hx (List.not_mem_nil x), fun v hv => hv⟩
  | cons x rest ih =>
    intro st hmem hGood
    have hxN : x < ctx.N := hmem x (List.mem_cons_self x rest)
    have hfb : dodFuelBound ctx (.calcVert (ctx.sortedInd x) x) ≤ 2 * ctx.N + 2 := by
      simp only [dodFuelBound]
      split_ifs <;> omega
    have hAb : ABound ctx (fun _ => False) x := fun a ha => absurd ha not_false
    obtain ⟨hG, hSO, hflag⟩ :=
      (calc_dod_spec ctx hB (2 * ctx.N + 2)).1 x st (fun _ => False) hxN hfb hAb hGood
    have hrest := ih (calc_dod ctx (2 * ctx.N + 2) (.calcVert (ctx.sortedInd x) x) st)
      (fun y hy => hmem y (List.mem_cons_of_mem x hy)) hG
    simp only [List.foldl_cons]
    refine ⟨hrest.1, ?_, ?_⟩
    · intro y hy
      rcases List.mem_cons.mp hy with rfl | hy
      · exact hrest.2.2 _ hflag
      · exact hrest.2.1 y hy
    · intro v hv
      exact hrest.2.2 v (hSO.1 v hv)

theorem recursive_search_rows [DecidableEq α] (ctx : SuperCtx α) (hB : 0 < ctx.B2) :
    (∀ i, i < ctx.N → RowSpec ctx (run_dod_recursive_search ctx initDodState) i) ∧
      (∀ v, ¬v < ctx.N → RowEmpty (run_dod_recursive_search ctx initDodState) v) := by
  have hall := run_search_fold ctx hB (List.range ctx.N) initDodState
    (fun x hx => List.mem_range.mp hx) (goodState_initial ctx)
  have heq : run_dod_recursive_search ctx initDodState =
      (List.range ctx.N).foldl
        (fun s i => calc_dod ctx (2 * ctx.N + 2) (.calcVert (ctx.sortedInd i) i) s)
        initDodState := rfl
  constructor
  · intro i hi
    have hflag := hall.2.1 i (List.mem_range.mpr hi)
    rw [heq]
    exact (hall.1.1 i hi).2.1 hflag
  · intro v hv
    rw [heq]
    exact (hall.1.2 v (fun hmem => hv ((mem_sorted ctx).mp hmem))).2

theorem pos_inj_of_nodup [DecidableEq α] {ctx : SuperCtx α} (hnd : ctx.verts.Nodup)
    {a b : Nat} (ha : a < ctx.N) (hb : b < ctx.N) (h : ctx.pos a = ctx.pos b) : a = b := by
  unfold SuperCtx.pos at h
  rw [List.getD_eq_get ctx.verts _ ha, List.getD_eq_get ctx.verts _ hb] at h
  exact congrArg Fin.val ((hnd.get_inj_iff).mp h)

/-! ## Claim theorems: domain-of-dependence engine -/

/-- C1 counterexample: a mesh with two coincident vertices at the origin and
M = 2.  After set_condition on a freshly constructed solver, the recursive
search records the earlier-sorted duplicate as depending on the later one
(the one-sided upstream predicate accepts a zero displacement), while the
brute-force search rejects it (x_c > 0 fails), so the two dependency matrices
differ — the claimed equality does not hold for every mesh geometry. -/
theorem c1_counterexample :
    (set_condition_dod (⟨[⟨0, 0, 0⟩, ⟨0, 0, 0⟩], initDodState⟩ : SuperSolver ℤ) 2
        ⟨1, 0, 0⟩).1.dod.dodArray 1 0 = true ∧
      (set_condition_dod (⟨[⟨0, 0, 0⟩, ⟨0, 0, 0⟩], initDodState⟩ : SuperSolver ℤ) 2
        ⟨1, 0, 0⟩).2 1 0 = false := by
  constructor
  · decide
  · decide

/-- C1 amended: after set_condition completes on a freshly constructed solver,
the dependency matrix produced by the recursive memoized search equals the
brute-force matrix on all ordered vertex pairs, for every Mach number M > 1
and every mesh whose vertex positions are pairwise distinct (the
counterexample shows coincident vertices break the equality). -/
theorem c1_amended_recursive_eq_brute (verts : List (Vec3 α)) (c0 : Vec3 α) (M : α)
    (hnd : verts.Nodup) (hM : 1 < M) (v u : Nat) (hv : v < verts.length)
    (hu : u < verts.length) :
    (set_condition_dod (⟨verts, initDodState⟩ : SuperSolver α) M c0).1.dod.dodArray v u =
      (set_condition_dod (⟨verts, initDodState⟩ : SuperSolver α) M c0).2 v u := by
  have hB : 0 < mach_B2 M := by
    unfold mach_B2
    nlinarith
  have hrows := recursive_search_rows (⟨verts, c0, mach_B2 M⟩ : SuperCtx α) hB
  have hvN : v < SuperCtx.N (⟨verts, c0, mach_B2 M⟩ : SuperCtx α) := hv
  have huN : u < SuperCtx.N (⟨verts, c0, mach_B2 M⟩ : SuperCtx α) := hu
  obtain ⟨i, hiN, hvi⟩ := sortedInd_surj (⟨verts, c0, mach_B2 M⟩ : SuperCtx α) hvN
  have hrs := hrows.1 i hiN
  show (run_dod_recursive_search (⟨verts, c0, mach_B2 M⟩ : SuperCtx α)
      initDodState).dodArray v u =
    run_dod_brute_force (⟨verts, c0, mach_B2 M⟩ : SuperCtx α) v u
  cases hb : run_dod_brute_force (⟨verts, c0, mach_B2 M⟩ : SuperCtx α) v u with
  | true =>
    obtain ⟨j, hjN, huj⟩ := sortedInd_surj (⟨verts, c0, mach_B2 M⟩ : SuperCtx α) huN
    rw [← hvi]
    exact (hrs u).mpr ⟨j, huj.symm, hjN, Or.inl (by rw [huj, hvi]; exact hb)⟩
  | false =>
    by_contra hcon
    rw [Bool.not_eq_false] at hcon
    rw [← hvi] at hcon
    obtain ⟨j, huj, hjN, hsp⟩ := (hrs u).mp hcon
    rcases hsp with hcone | ⟨hpos, hij⟩
    · rw [huj] at hb
      rw [hvi] at hcone
      rw [show run_dod_brute_force (⟨verts, c0, mach_B2 M⟩ : SuperCtx α) v
          (SuperCtx.sortedInd (⟨verts, c0, mach_B2 M⟩ : SuperCtx α) j) =
        in_dod (mach_B2 M) c0
          (SuperCtx.pos (⟨verts, c0, mach_B2 M⟩ : SuperCtx α) v)
          (SuperCtx.pos (⟨verts, c0, mach_B2 M⟩ : SuperCtx α)
            (SuperCtx.sortedInd (⟨verts, c0, mach_B2 M⟩ : SuperCtx α) j)) from rfl] at hb
      rw [hcone] at hb
      simp at hb
    · have := pos_inj_of_nodup hnd (sortedInd_lt _ hjN) (sortedInd_lt _ hiN) hpos
      have hji := sortedInd_inj (⟨verts, c0, mach_B2 M⟩ : SuperCtx α) hjN hiN this
      omega

/-- C1 witness: a two-vertex mesh with distinct positions at M = 2; the
amended equality instantiated at the pair (0, 1). -/
theorem c1_witness :
    ([⟨0, 0, 0⟩, ⟨1, 0, 0⟩] : List (Vec3 ℤ)).Nodup ∧ (1 : ℤ) < 2 ∧
      (set_condition_dod (⟨[⟨0, 0, 0⟩, ⟨1, 0, 0⟩], initDodState⟩ : SuperSolver ℤ) 2
          ⟨1, 0, 0⟩).1.dod.dodArray 0 1 =
        (set_condition_dod (⟨[⟨0, 0, 0⟩, ⟨1, 0, 0⟩], initDodState⟩ : SuperSolver ℤ) 2
          ⟨1, 0, 0⟩).2 0 1 :=
  ⟨by decide, by decide,
    c1_amended_recursive_eq_brute [⟨0, 0, 0⟩, ⟨1, 0, 0⟩] ⟨1, 0, 0⟩ 2 (by decide) (by decide)
      0 1 (by decide) (by decide)⟩

/-- C4: the reset loop of set_condition clears the per-vertex dependency sets
but NOT the memoization vector _dod_is_calculated, so on a second
set_condition call every _calc_dod body is skipped and the recursive search
leaves all dependency sets empty.  Concretely, on the mesh
[(0,0,0), (1,0,0)]: after a first call with M = 2 and a second with M = 3,
the recursive matrix entry (0,1) is false, while the brute-force search of
the second call — and the recursive search of a fresh solver at M = 3 —
both record it as true. -/
theorem c4_memo_flags_not_reset :
    (set_condition_dod
        (set_condition_dod (⟨[⟨0, 0, 0⟩, ⟨1, 0, 0⟩], initDodState⟩ : SuperSolver ℤ) 2
          ⟨1, 0, 0⟩).1 3 ⟨1, 0, 0⟩).1.dod.dodArray 0 1 = false ∧
      (set_condition_dod
        (set_condition_dod (⟨[⟨0, 0, 0⟩, ⟨1, 0, 0⟩], initDodState⟩ : SuperSolver ℤ) 2
          ⟨1, 0, 0⟩).1 3 ⟨1, 0, 0⟩).2 0 1 = true ∧
      (set_condition_dod (⟨[⟨0, 0, 0⟩, ⟨1, 0, 0⟩], initDodState⟩ : SuperSolver ℤ) 3
        ⟨1, 0, 0⟩).1.dod.dodArray 0 1 = true := by
  refine ⟨?_, ?_, ?_⟩
  · decide
  · decide
  · decide

/-- C9: after set_condition completes on a freshly constructed solver, every
vertex's dependency set is transitively closed, for every mesh and every
M > 1 (coincident vertices included). -/
theorem c9_dependency_sets_transitive (verts : List (Vec3 α)) (c0 : Vec3 α) (M : α)
    (hM : 1 < M) (v u w : Nat)
    (h1 : (set_condition_dod (⟨verts, initDodState⟩ : SuperSolver α) M c0).1.dod.dodArray
      v u = true)
    (h2 : (set_condition_dod (⟨verts, initDodState⟩ : SuperSolver α) M c0).1.dod.dodArray
      u w = true) :
    (set_condition_dod (⟨verts, initDodState⟩ : SuperSolver α) M c0).1.dod.dodArray
      v w = true := by
  have hB : 0 < mach_B2 M := by
    unfold mach_B2
    nlinarith
  have hrows := recursive_search_rows (⟨verts, c0, mach_B2 M⟩ : SuperCtx α) hB
  replace h1 : (run_dod_recursive_search (⟨verts, c0, mach_B2 M⟩ : SuperCtx α)
      initDodState).dodArray v u = true := h1
  replace h2 : (run_dod_recursive_search (⟨verts, c0, mach_B2 M⟩ : SuperCtx α)
      initDodState).dodArray u w = true := h2
  show (run_dod_recursive_search (⟨verts, c0, mach_B2 M⟩ : SuperCtx α)
      initDodState).dodArray v w = true
  by_cases hvN : v < SuperCtx.N (⟨verts, c0, mach_B2 M⟩ : SuperCtx α)
  · obtain ⟨i, hiN, hvi⟩ := sortedInd_surj (⟨verts, c0, mach_B2 M⟩ : SuperCtx α) hvN
    rw [← hvi] at h1 ⊢
    obtain ⟨j, huj, hjN, hsp1⟩ := ((hrows.1 i hiN) u).mp h1
    have hujN : u < SuperCtx.N (⟨verts, c0, mach_B2 M⟩ : SuperCtx α) := by
      rw [huj]
      exact sortedInd_lt _ hjN
    rw [huj] at h2
    obtain ⟨k, hwk, hkN, hsp2⟩ := ((hrows.1 j hjN) w).mp h2
    exact ((hrows.1 i hiN) w).mpr ⟨k, hwk, specP_trans hB ⟨hjN, hsp1⟩ ⟨hkN, hsp2⟩⟩
  · rw [(hrows.2 v hvN).1 u] at h1
    simp at h1

/-- C9 witness: the three-vertex chain (0,0,0), (1,0,0), (2,0,0) at M = 2;
vertex 1 depends on 2 and vertex 0 on 1, and the theorem yields 0 on 2. -/
theorem c9_witness :
    (1 : ℤ) < 2 ∧
      (set_condition_dod (⟨[⟨0, 0, 0⟩, ⟨1, 0, 0⟩, ⟨2, 0, 0⟩], initDodState⟩ : SuperSolver ℤ) 2
        ⟨1, 0, 0⟩).1.dod.dodArray 0 1 = true ∧
      (set_condition_dod (⟨[⟨0, 0, 0⟩, ⟨1, 0, 0⟩, ⟨2, 0, 0⟩], initDodState⟩ : SuperSolver ℤ) 2
        ⟨1, 0, 0⟩).1.dod.dodArray 1 2 = true ∧
      (set_condition_dod (⟨[⟨0, 0, 0⟩, ⟨1, 0, 0⟩, ⟨2, 0, 0⟩], initDodState⟩ : SuperSolver ℤ) 2
        ⟨1, 0, 0⟩).1.dod.dodArray 0 2 = true :=
  ⟨by decide, by decide, by decide,
    c9_dependency_sets_transitive [⟨0, 0, 0⟩, ⟨1, 0, 0⟩, ⟨2, 0, 0⟩] ⟨1, 0, 0⟩ 2 (by decide)
      0 1 2 (by decide) (by decide)⟩

/-- C10: the recursive search terminates on every mesh.  In the fuel-indexed
embedding this is exactly fuel-stabilisation: once the fuel reaches the bound
2*(N - i) + 2 — linear in the number of vertices, reflecting that each
recursive call moves to a strictly larger sorted position and the scan range
is bounded by the vertex count — the result of _calc_dod no longer depends on
the fuel; moreover the _dod_is_calculated memo flag makes a call on an
already-processed vertex the identity, so each vertex's loop body runs at
most once. -/
theorem c10_calc_dod_terminates [DecidableEq α] (ctx : SuperCtx α) (ind i : Nat)
    (st : DodState) (f1 f2 : Nat) (h1 : dodFuelBound ctx (.calcVert ind i) ≤ f1)
    (h2 : dodFuelBound ctx (.calcVert ind i) ≤ f2) :
    calc_dod ctx f1 (.calcVert ind i) st = calc_dod ctx f2 (.calcVert ind i) st ∧
      (st.calculated ind = true → calc_dod ctx f1 (.calcVert ind i) st = st) := by
  refine ⟨calc_dod_fuel_eq ctx f1 f2 _ st h1 h2, ?_⟩
  intro hc
  have hpos : 1 ≤ f1 := le_trans (dodFuelBound_pos ctx _) h1
  obtain ⟨f1', rfl⟩ : ∃ k, f1 = k + 1 := ⟨f1 - 1, by omega⟩
  simp only [calc_dod]
  rw [if_pos hc]

/-- C10 witness: on a concrete two-vertex mesh, fuels 6 and 11 both exceed
the bound and give identical results. -/
theorem c10_witness :
    dodFuelBound (⟨[⟨0, 0, 0⟩, ⟨1, 0, 0⟩], ⟨1, 0, 0⟩, 3⟩ : SuperCtx ℤ)
        (.calcVert 0 0) ≤ 6 ∧
      dodFuelBound (⟨[⟨0, 0, 0⟩, ⟨1, 0, 0⟩], ⟨1, 0, 0⟩, 3⟩ : SuperCtx ℤ)
        (.calcVert 0 0) ≤ 11 ∧
      calc_dod (⟨[⟨0, 0, 0⟩, ⟨1, 0, 0⟩], ⟨1, 0, 0⟩, 3⟩ : SuperCtx ℤ) 6 (.calcVert 0 0)
          initDodState =
        calc_dod (⟨[⟨0, 0, 0⟩, ⟨1, 0, 0⟩], ⟨1, 0, 0⟩, 3⟩ : SuperCtx ℤ) 11 (.calcVert 0 0)
          initDodState :=
  ⟨by decide, by decide,
    (c10_calc_dod_terminates (⟨[⟨0, 0, 0⟩, ⟨1, 0, 0⟩], ⟨1, 0, 0⟩, 3⟩ : SuperCtx ℤ) 0 0
      initDodState 6 11 (by decide) (by decide)).1⟩
